import Mathlib

/-!
Shallow embedding of the virtio-iommu translation core
(`src/hw/virtio/virtio-iommu.c`): the domain/endpoint/mapping data model,
the interval-keyed mapping table with its overlap comparator, the
ATTACH/DETACH/MAP/UNMAP/PROBE command handlers, the per-access translator,
the notifier fan-out, and the snapshot codec with its post-load link
reconstruction.  Machine integers are modelled as `Nat` with explicit
reduction modulo `2 ^ 64` where the C code can wrap.
-/

namespace VIOMMU

/-! ### Wire constants -/

def S_OK : Nat := 0
def S_IOERR : Nat := 1
def S_UNSUPP : Nat := 2
def S_DEVERR : Nat := 3
def S_INVAL : Nat := 4
def S_RANGE : Nat := 5
def S_NOENT : Nat := 6

def T_ATTACH : Nat := 1
def T_DETACH : Nat := 2
def T_MAP : Nat := 3
def T_UNMAP : Nat := 4
def T_PROBE : Nat := 5

def MAP_F_READ : Nat := 1
def MAP_F_WRITE : Nat := 2

def IOMMU_NONE : Nat := 0
def IOMMU_RO : Nat := 1
def IOMMU_WO : Nat := 2
def IOMMU_RW : Nat := 3

def FAULT_R_UNKNOWN : Nat := 0
def FAULT_R_DOMAIN : Nat := 1
def FAULT_R_MAPPING : Nat := 2

def FAULT_F_READ : Nat := 1
def FAULT_F_WRITE : Nat := 2
def FAULT_F_ADDRESS : Nat := 256

def RESV_MEM_T_RESERVED : Nat := 0
def RESV_MEM_T_MSI : Nat := 1

/-! ### 64-bit arithmetic helpers -/

def U64 : Nat := 2 ^ 64

/-- Reduce a `Nat` to the value of the corresponding `uint64_t`. -/
def wrap64 (n : Nat) : Nat := n % U64

/-- `uint64_t` subtraction `a - b` (two's-complement wraparound). -/
def sub64 (a b : Nat) : Nat := (a % U64 + (U64 - b % U64)) % U64

/-- Count of trailing zero bits of the low 32 bits, 32 when they are all zero
(QEMU `ctz32`). -/
def ctz32 (n : Nat) : Nat :=
  ((List.range 32).find? (fun i => (n / 2 ^ i) % 2 = 1)).getD 32

/-! ### Data model -/

structure viommu_interval where
  low : Nat
  high : Nat
deriving DecidableEq

structure viommu_mapping where
  phys_addr : Nat
  flags : Nat
deriving DecidableEq

/-- A domain: its interval-keyed mapping table (kept in the comparator's
in-order sequence), the ids of its attached endpoints, and the reference
count of the shared mapping table (`g_tree_ref`/`g_tree_unref`). -/
structure viommu_domain where
  mappings : List (viommu_interval × viommu_mapping)
  endpoint_list : List Nat
  mappings_refs : Nat
deriving DecidableEq

/-- An endpoint record: the id is the table key; `domain` is the
back-pointer, rendered as a domain id. -/
structure viommu_endpoint where
  domain : Option Nat
deriving DecidableEq

structure ReservedRegion where
  low : Nat
  high : Nat
  rtype : Nat
deriving DecidableEq

/-- Device state: the two id-keyed tables (kept in ascending key order, the
in-order sequence of the `GTree`s), the notifier registry (the sids of the
subscribed memory regions), and the construction-time configuration. -/
structure VirtIOIOMMU where
  domains : List (Nat × viommu_domain)
  endpoints : List (Nat × viommu_endpoint)
  notifiers_list : List Nat
  bypass_allowed : Bool
  reserved_regions : List ReservedRegion
  page_size_mask : Nat
deriving DecidableEq

/-! ### The interval map -/

/-- The overlap comparator of the mapping `GTree` (`interval_cmp`). -/
def interval_cmp (a b : viommu_interval) : Int :=
  if a.high < b.low then -1 else if b.high < a.low then 1 else 0

/-- `g_tree_lookup` / `g_tree_lookup_extended` on the interval map: find an
entry the query compares equal to, i.e. overlaps. -/
def gtreeLookup (q : viommu_interval) (ms : List (viommu_interval × viommu_mapping)) :
    Option (viommu_interval × viommu_mapping) :=
  ms.find? (fun p => interval_cmp q p.1 == 0)

/-- `g_tree_insert` on the interval map: place the new key before the first
key it compares below; replace the value of a key it compares equal to. -/
def gtreeInsert (k : viommu_interval) (v : viommu_mapping) :
    List (viommu_interval × viommu_mapping) → List (viommu_interval × viommu_mapping)
  | [] => [(k, v)]
  | (k', v') :: rest =>
    if interval_cmp k k' = -1 then (k, v) :: (k', v') :: rest
    else if interval_cmp k k' = 0 then (k', v) :: rest
    else (k', v') :: gtreeInsert k v rest

/-! ### The id-keyed tables (`GTree` with `int_cmp`) -/

def tblLookup {α : Type} (k : Nat) (t : List (Nat × α)) : Option α :=
  (t.find? (fun p => p.1 == k)).map Prod.snd

def tblInsert {α : Type} (k : Nat) (v : α) : List (Nat × α) → List (Nat × α)
  | [] => [(k, v)]
  | (k', v') :: rest =>
    if k < k' then (k, v) :: (k', v') :: rest
    else if k = k' then (k, v) :: rest
    else (k', v') :: tblInsert k v rest

def tblUpdate {α : Type} (k : Nat) (f : α → α) : List (Nat × α) → List (Nat × α)
  | [] => []
  | (k', v) :: rest => if k' = k then (k', f v) :: rest else (k', v) :: tblUpdate k f rest

/-! ### Notifications -/

inductive IOMMUEvent where
  | map (sid iova paddr size perm : Nat)
  | unmap (sid iova size : Nat)
  | fault (reason flags endpoint address : Nat)
deriving DecidableEq

/-- `virtio_iommu_notify_map`: the emitted entry always carries `IOMMU_RW`. -/
def virtio_iommu_notify_map (sid iova paddr size : Nat) : IOMMUEvent :=
  IOMMUEvent.map sid iova paddr size IOMMU_RW

def virtio_iommu_notify_unmap (sid iova size : Nat) : IOMMUEvent :=
  IOMMUEvent.unmap sid iova size

/-- `high - low + 1` in `uint64_t`, the notified size of a mapping. -/
def intervalSize (k : viommu_interval) : Nat := wrap64 (sub64 k.high k.low + 1)

/-- UNMAP fan-out of a whole mapping table for one endpoint id: the notifier
loop of `virtio_iommu_detach_endpoint_from_domain`. -/
def epUnmapEvents (notifiers : List Nat) (epId : Nat)
    (ms : List (viommu_interval × viommu_mapping)) : List IOMMUEvent :=
  notifiers.flatMap (fun sid =>
    if epId = sid then
      ms.map (fun p => virtio_iommu_notify_unmap sid p.1.low (intervalSize p.1))
    else [])

/-- MAP replay of a whole mapping table for one endpoint id: the notifier
loop at the end of `virtio_iommu_attach`. -/
def epMapEvents (notifiers : List Nat) (epId : Nat)
    (ms : List (viommu_interval × viommu_mapping)) : List IOMMUEvent :=
  notifiers.flatMap (fun sid =>
    if epId = sid then
      ms.map (fun p => virtio_iommu_notify_map sid p.1.low p.2.phys_addr (intervalSize p.1))
    else [])

/-- MAP fan-out of one new mapping over notifiers and the domain's attached
endpoints: the notification loops of `virtio_iommu_map`. -/
def domainMapEvents (notifiers eps : List Nat) (virt_start phys_start size : Nat) :
    List IOMMUEvent :=
  notifiers.flatMap (fun sid =>
    eps.flatMap (fun e =>
      if e = sid then [virtio_iommu_notify_map sid virt_start phys_start size] else []))

/-- UNMAP fan-out of one removed mapping: the loops of
`virtio_iommu_remove_mapping`. -/
def domainUnmapEvents (notifiers eps : List Nat) (k : viommu_interval) : List IOMMUEvent :=
  notifiers.flatMap (fun sid =>
    eps.flatMap (fun e =>
      if e = sid then [virtio_iommu_notify_unmap sid k.low (intervalSize k)] else []))

/-! ### Command handlers -/

/-- `virtio_iommu_detach_endpoint_from_domain`: notify UNMAP of every current
mapping to each notifier bound to the endpoint id, unlink the endpoint from
the domain's list, release one mapping-table reference, clear the
endpoint's domain pointer. -/
def virtio_iommu_detach_endpoint_from_domain (s : VirtIOIOMMU) (epId : Nat) :
    VirtIOIOMMU × List IOMMUEvent :=
  match (tblLookup epId s.endpoints).bind (fun e => e.domain) with
  | none => (s, [])
  | some did =>
    match tblLookup did s.domains with
    | none => (s, [])
    | some d =>
      ({ s with
          domains := tblUpdate did (fun d =>
            { d with endpoint_list := d.endpoint_list.erase epId,
                     mappings_refs := d.mappings_refs - 1 }) s.domains,
          endpoints := tblUpdate epId (fun _ => ⟨none⟩) s.endpoints },
       epUnmapEvents s.notifiers_list epId d.mappings)

/-- `virtio_iommu_get_endpoint`: look the endpoint up, creating an
unattached record when absent. -/
def virtio_iommu_get_endpoint (s : VirtIOIOMMU) (ep_id : Nat) : VirtIOIOMMU :=
  match tblLookup ep_id s.endpoints with
  | some _ => s
  | none => { s with endpoints := tblInsert ep_id ⟨none⟩ s.endpoints }

/-- `virtio_iommu_get_domain`: look the domain up, creating one with an
empty mapping table (reference count 1) when absent. -/
def virtio_iommu_get_domain (s : VirtIOIOMMU) (domain_id : Nat) : VirtIOIOMMU :=
  match tblLookup domain_id s.domains with
  | some _ => s
  | none => { s with domains := tblInsert domain_id ⟨[], [], 1⟩ s.domains }

/-- `virtio_iommu_attach`: create the endpoint lazily, detach it first when
already attached, create the target domain lazily, link the two, take a
mapping-table reference, replay the domain's mappings to the endpoint's
notifiers.  Always returns `S_OK`. -/
def virtio_iommu_attach (s : VirtIOIOMMU) (domain_id ep_id : Nat) :
    VirtIOIOMMU × List IOMMUEvent × Nat :=
  let s1 := virtio_iommu_get_endpoint s ep_id
  let det := if ((tblLookup ep_id s1.endpoints).bind (fun e => e.domain)).isSome then
               virtio_iommu_detach_endpoint_from_domain s1 ep_id
             else (s1, [])
  let s2 := det.1
  let s3 := virtio_iommu_get_domain s2 domain_id
  let s4 := { s3 with
              domains := tblUpdate domain_id (fun d =>
                { d with endpoint_list := ep_id :: d.endpoint_list,
                         mappings_refs := d.mappings_refs + 1 }) s3.domains,
              endpoints := tblUpdate ep_id (fun _ => ⟨some domain_id⟩) s3.endpoints }
  let replay := match tblLookup domain_id s4.domains with
                | some d => epMapEvents s4.notifiers_list ep_id d.mappings
                | none => []
  (s4, det.2 ++ replay, S_OK)

/-- The detach-first stage of `virtio_iommu_attach`, named for reasoning:
the state and UNMAP events after the endpoint was created and, when it was
already attached, detached. -/
def attachDet (s : VirtIOIOMMU) (ep_id : Nat) : VirtIOIOMMU × List IOMMUEvent :=
  if ((tblLookup ep_id (virtio_iommu_get_endpoint s ep_id).endpoints).bind
        (fun e => e.domain)).isSome then
    virtio_iommu_detach_endpoint_from_domain (virtio_iommu_get_endpoint s ep_id) ep_id
  else (virtio_iommu_get_endpoint s ep_id, [])

/-- The state of `virtio_iommu_attach` after the target domain was created
lazily. -/
def attachS3 (s : VirtIOIOMMU) (domain_id ep_id : Nat) : VirtIOIOMMU :=
  virtio_iommu_get_domain (attachDet s ep_id).1 domain_id

/-- The final state of `virtio_iommu_attach`: endpoint and domain linked
and one mapping-table reference taken. -/
def attachS4 (s : VirtIOIOMMU) (domain_id ep_id : Nat) : VirtIOIOMMU :=
  { attachS3 s domain_id ep_id with
    domains := (tblUpdate domain_id
      (fun d => { d with endpoint_list := ep_id :: d.endpoint_list,
                         mappings_refs := d.mappings_refs + 1 })
      (attachS3 s domain_id ep_id).domains),
    endpoints := (tblUpdate ep_id (fun _ => ⟨some domain_id⟩)
      (attachS3 s domain_id ep_id).endpoints) }

/-- `virtio_iommu_detach`: `S_NOENT` for an unknown endpoint, `S_INVAL` for
an unattached one, otherwise detach-from-domain and `S_OK`.  The request's
domain id is not consulted. -/
def virtio_iommu_detach (s : VirtIOIOMMU) (domain_id ep_id : Nat) :
    VirtIOIOMMU × List IOMMUEvent × Nat :=
  match tblLookup ep_id s.endpoints with
  | none => (s, [], S_NOENT)
  | some e =>
    match e.domain with
    | none => (s, [], S_INVAL)
    | some _ =>
      let r := virtio_iommu_detach_endpoint_from_domain s ep_id
      (r.1, r.2, S_OK)

/-- `virtio_iommu_map`: `S_NOENT` for an unknown domain, `S_INVAL` when the
interval compares equal to (overlaps) an existing key, otherwise insert and
fan out a MAP notification. -/
def virtio_iommu_map (s : VirtIOIOMMU) (domain_id virt_start virt_end phys_start flags : Nat) :
    VirtIOIOMMU × List IOMMUEvent × Nat :=
  let interval : viommu_interval := ⟨virt_start, virt_end⟩
  match tblLookup domain_id s.domains with
  | none => (s, [], S_NOENT)
  | some d =>
    match gtreeLookup interval d.mappings with
    | some _ => (s, [], S_INVAL)
    | none =>
      let mapping : viommu_mapping := ⟨phys_start, flags⟩
      ({ s with domains := tblUpdate domain_id (fun d =>
           { d with mappings := gtreeInsert interval mapping d.mappings }) s.domains },
       domainMapEvents s.notifiers_list d.endpoint_list virt_start phys_start
         (wrap64 (sub64 virt_end virt_start + 1)),
       S_OK)

/-- The `while (g_tree_lookup_extended(...))` loop of `virtio_iommu_unmap`:
repeatedly find a key overlapping the query; remove it when the query fully
covers it, stop with `S_RANGE` on a key it would split.  Returns the
remaining table, the removed keys in removal order, and the status. -/
def unmapLoop (q : viommu_interval) (ms : List (viommu_interval × viommu_mapping)) :
    List (viommu_interval × viommu_mapping) × List viommu_interval × Nat :=
  match h : ms.find? (fun p => interval_cmp q p.1 == 0) with
  | none => (ms, [], S_OK)
  | some kv =>
    if q.low ≤ kv.1.low ∧ kv.1.high ≤ q.high then
      let r := unmapLoop q (ms.erase kv)
      (r.1, kv.1 :: r.2.1, r.2.2)
    else (ms, [], S_RANGE)
termination_by ms.length
decreasing_by
  have hm : kv ∈ ms := List.mem_of_find?_eq_some h
  rw [List.length_erase_of_mem hm]
  exact Nat.pred_lt (Nat.not_eq_zero_of_lt (List.length_pos_of_mem hm))

/-- `virtio_iommu_unmap`: `S_NOENT` for an unknown domain, otherwise run the
removal loop, keeping the removals performed before a `S_RANGE` stop. -/
def virtio_iommu_unmap (s : VirtIOIOMMU) (domain_id virt_start virt_end : Nat) :
    VirtIOIOMMU × List IOMMUEvent × Nat :=
  match tblLookup domain_id s.domains with
  | none => (s, [], S_NOENT)
  | some d =>
    let r := unmapLoop ⟨virt_start, virt_end⟩ d.mappings
    ({ s with domains := tblUpdate domain_id (fun d => { d with mappings := r.1 }) s.domains },
     r.2.1.flatMap (fun k => domainUnmapEvents s.notifiers_list d.endpoint_list k),
     r.2.2)

def VIOMMU_PROBE_SIZE : Nat := 512

/-- Size of one `virtio_iommu_probe_resv_mem` record (4-byte property head
plus subtype, start and end). -/
def PROBE_RESV_MEM_PROP_SIZE : Nat := 28

/-- Size of the terminating empty `virtio_iommu_probe_property`. -/
def PROBE_PROPERTY_SIZE : Nat := 4

/-- `virtio_iommu_probe` / `virtio_iommu_fill_resv_mem_prop`: `S_INVAL` when
the reserved-region records do not fit the probe buffer. -/
def virtio_iommu_probe (s : VirtIOIOMMU) (ep_id : Nat) : Nat :=
  if PROBE_RESV_MEM_PROP_SIZE * s.reserved_regions.length >
      VIOMMU_PROBE_SIZE - PROBE_PROPERTY_SIZE then S_INVAL
  else S_OK

/-! ### The command processor -/

/-- One popped virtqueue element: the total lengths of its out and in
scatter lists and the decoded request fields (interpreted per command
type). -/
structure VirtQueueElem where
  out_len : Nat
  in_len : Nat
  head_type : Nat
  domain : Nat
  endpoint : Nat
  virt_start : Nat
  virt_end : Nat
  phys_start : Nat
  flags : Nat
deriving DecidableEq

def REQ_HEAD_SIZE : Nat := 4
def REQ_TAIL_SIZE : Nat := 4

/-- Modelled from the spec: the fixed request sizes minus the tail, per the
wire layout of spec section 6 (4-byte head, then the typed body); the
`virtio_iommu_req_*` struct declarations live in a protocol header that is
not part of the translated source file.  `virtio_iommu_iov_to_req` demands
exactly this many bytes in the out buffer. -/
def req_payload_size : Nat → Nat
  | 1 => 20
  | 2 => 20
  | 3 => 36
  | 4 => 28
  | 5 => 72
  | _ => 0

/-- `virtio_iommu_handle_command` on one element: `none` models the paths
where no tail status is ever written — the `virtio_error` path (buffers
smaller than head/tail) and the PROBE arm's failed assertion
`sz == s->config.probe_size + sizeof(tail)`, which aborts whenever the in
buffer cannot hold the full probe response of `probe_size` bytes plus the
tail.  Otherwise the dispatch, with the short-payload check of
`virtio_iommu_iov_to_req` yielding `S_INVAL` in the tail. -/
def virtio_iommu_handle_command (s : VirtIOIOMMU) (e : VirtQueueElem) :
    Option (VirtIOIOMMU × List IOMMUEvent × Nat) :=
  if e.in_len < REQ_TAIL_SIZE ∨ e.out_len < REQ_HEAD_SIZE then none
  else if e.head_type = T_PROBE then
    if e.in_len < VIOMMU_PROBE_SIZE + REQ_TAIL_SIZE then none
    else some (s, [],
      if e.out_len < req_payload_size T_PROBE then S_INVAL
      else virtio_iommu_probe s e.endpoint)
  else some (
    if e.head_type = T_ATTACH then
      if e.out_len < req_payload_size T_ATTACH then (s, [], S_INVAL)
      else virtio_iommu_attach s e.domain e.endpoint
    else if e.head_type = T_DETACH then
      if e.out_len < req_payload_size T_DETACH then (s, [], S_INVAL)
      else virtio_iommu_detach s e.domain e.endpoint
    else if e.head_type = T_MAP then
      if e.out_len < req_payload_size T_MAP then (s, [], S_INVAL)
      else virtio_iommu_map s e.domain e.virt_start e.virt_end e.phys_start e.flags
    else if e.head_type = T_UNMAP then
      if e.out_len < req_payload_size T_UNMAP then (s, [], S_INVAL)
      else virtio_iommu_unmap s e.domain e.virt_start e.virt_end
    else (s, [], S_UNSUPP))

/-! ### The translator -/

structure IOMMUTLBEntry where
  iova : Nat
  translated_addr : Nat
  addr_mask : Nat
  perm : Nat
deriving DecidableEq

/-- The translator's initial TLB entry: identity translation, the page
mask, no permission. -/
def translateEntry0 (s : VirtIOIOMMU) (addr : Nat) : IOMMUTLBEntry :=
  ⟨addr, addr, 2 ^ ctz32 s.page_size_mask - 1, IOMMU_NONE⟩

/-- `virtio_iommu_translate`: returns the TLB entry and the fault records
pushed on the event queue.  The lookup key is the degenerate interval
`[addr, addr + 1]` (the `+ 1` in `uint64_t`). -/
def virtio_iommu_translate (s : VirtIOIOMMU) (sid addr flag : Nat) :
    IOMMUTLBEntry × List IOMMUEvent :=
  let interval : viommu_interval := ⟨addr, wrap64 (addr + 1)⟩
  let entry : IOMMUTLBEntry := translateEntry0 s addr
  match tblLookup sid s.endpoints with
  | none =>
    if s.bypass_allowed then ({ entry with perm := flag }, [])
    else (entry, [IOMMUEvent.fault FAULT_R_UNKNOWN 0 sid 0])
  | some ep =>
    match s.reserved_regions.find? (fun r => decide (r.low ≤ addr) && decide (addr ≤ r.high)) with
    | some r =>
      if r.rtype = RESV_MEM_T_MSI then ({ entry with perm := flag }, [])
      else (entry, [IOMMUEvent.fault FAULT_R_MAPPING 0 sid addr])
    | none =>
      match ep.domain with
      | none =>
        if s.bypass_allowed then ({ entry with perm := flag }, [])
        else (entry, [IOMMUEvent.fault FAULT_R_DOMAIN 0 sid 0])
      | some did =>
        match tblLookup did s.domains with
        | none => (entry, [])
        | some d =>
          match gtreeLookup interval d.mappings with
          | none => (entry, [IOMMUEvent.fault FAULT_R_MAPPING 0 sid addr])
          | some kv =>
            let read_fault : Bool :=
              ((flag &&& IOMMU_RO) != 0) && ((kv.2.flags &&& MAP_F_READ) == 0)
            let write_fault : Bool :=
              ((flag &&& IOMMU_WO) != 0) && ((kv.2.flags &&& MAP_F_WRITE) == 0)
            let fflags := (if read_fault then FAULT_F_READ else 0) |||
                          (if write_fault then FAULT_F_WRITE else 0)
            if fflags ≠ 0 then
              (entry, [IOMMUEvent.fault FAULT_R_MAPPING (fflags ||| FAULT_F_ADDRESS) sid addr])
            else
              ({ entry with
                  translated_addr := wrap64 (sub64 addr kv.1.low + kv.2.phys_addr),
                  perm := flag }, [])

/-- The mapping table of the domain an endpoint is attached to; empty when
the endpoint or its domain is absent.  Used to state claims about the
translator's result. -/
def endpointDomainMappings (s : VirtIOIOMMU) (sid : Nat) :
    List (viommu_interval × viommu_mapping) :=
  match (tblLookup sid s.endpoints).bind (fun e => e.domain) with
  | none => []
  | some did =>
    match tblLookup did s.domains with
    | none => []
    | some d => d.mappings

/-! ### Replay, remap, notifier registration -/

/-- `virtio_iommu_remap`: UNMAP followed by MAP for one mapping. -/
def virtio_iommu_remap (sid : Nat) (p : viommu_interval × viommu_mapping) : List IOMMUEvent :=
  [virtio_iommu_notify_unmap sid p.1.low (intervalSize p.1),
   virtio_iommu_notify_map sid p.1.low p.2.phys_addr (intervalSize p.1)]

/-- `virtio_iommu_replay`: remap every mapping of the endpoint's domain. -/
def virtio_iommu_replay (s : VirtIOIOMMU) (sid : Nat) : List IOMMUEvent :=
  match tblLookup sid s.endpoints with
  | none => []
  | some ep =>
    match ep.domain with
    | none => []
    | some did =>
      match tblLookup did s.domains with
      | none => []
      | some d => d.mappings.flatMap (virtio_iommu_remap sid)

/-- `virtio_iommu_notify_flag_changed`, `NONE → active`. -/
def virtio_iommu_notifier_add (s : VirtIOIOMMU) (sid : Nat) : VirtIOIOMMU :=
  { s with notifiers_list := sid :: s.notifiers_list }

/-- `virtio_iommu_notify_flag_changed`, `active → NONE`. -/
def virtio_iommu_notifier_del (s : VirtIOIOMMU) (sid : Nat) : VirtIOIOMMU :=
  { s with notifiers_list := s.notifiers_list.erase sid }

/-! ### Reachability -/

/-- The state after `virtio_iommu_device_realize`: empty tables, no
notifiers, construction-time configuration. -/
def initState (b : Bool) (rr : List ReservedRegion) (m : Nat) : VirtIOIOMMU :=
  ⟨[], [], [], b, rr, m⟩

inductive Step : VirtIOIOMMU → VirtIOIOMMU → Prop where
  | command (s : VirtIOIOMMU) (e : VirtQueueElem) (s' : VirtIOIOMMU)
      (evs : List IOMMUEvent) (st : Nat)
      (h : virtio_iommu_handle_command s e = some (s', evs, st)) : Step s s'
  | notifierAdd (s : VirtIOIOMMU) (sid : Nat) : Step s (virtio_iommu_notifier_add s sid)
  | notifierDel (s : VirtIOIOMMU) (sid : Nat) : Step s (virtio_iommu_notifier_del s sid)

inductive Reachable : VirtIOIOMMU → Prop where
  | init (b : Bool) (rr : List ReservedRegion) (m : Nat) : Reachable (initState b rr m)
  | step {s s' : VirtIOIOMMU} : Reachable s → Step s s' → Reachable s'

/-- The mapping tables of all domains hold pairwise non-overlapping keys
(overlap = the comparator answering "equal"). -/
def domainsNonOverlapping (s : VirtIOIOMMU) : Prop :=
  ∀ p ∈ s.domains, List.Pairwise (fun a b => interval_cmp a.1 b.1 ≠ 0) p.2.mappings

/-- Pairwise non-overlap of one domain record's mapping table. -/
def mappingsNonOverlapPred (d0 : viommu_domain) : Prop :=
  List.Pairwise (fun a b => interval_cmp a.1 b.1 ≠ 0) d0.mappings

/-- Two intervals share a point. -/
def sharesPoint (a b : viommu_interval) : Prop :=
  ∃ x, a.low ≤ x ∧ x ≤ a.high ∧ b.low ≤ x ∧ x ≤ b.high

/-! ### Snapshot codec -/

structure SnapshotDomain where
  id : Nat
  mappings : List (viommu_interval × viommu_mapping)
  endpoint_ids : List Nat
deriving DecidableEq

structure Snapshot where
  domains : List SnapshotDomain
  endpoint_ids : List Nat
deriving DecidableEq

/-- `vmstate_virtio_iommu_device` save: domains in id order with their
in-order mapping tuples and attached-endpoint id list; endpoints as ids
only. -/
def vmstateSave (s : VirtIOIOMMU) : Snapshot :=
  ⟨s.domains.map (fun p => ⟨p.1, p.2.mappings, p.2.endpoint_list⟩),
   s.endpoints.map (fun p => p.1)⟩

/-- Loading a domain's mapping table: `domain_preload` makes a fresh tree,
then each saved tuple is inserted in saved order. -/
def loadMappings (ms : List (viommu_interval × viommu_mapping)) :
    List (viommu_interval × viommu_mapping) :=
  ms.foldl (fun acc p => gtreeInsert p.1 p.2 acc) []

/-- Load before the post-load fix-up: domains rebuilt with reference count 1
and their saved endpoint-id lists as placeholders, endpoints rebuilt with a
cleared domain pointer. -/
def vmstateLoadRaw (sn : Snapshot) (ns : List Nat) (b : Bool)
    (rr : List ReservedRegion) (m : Nat) : VirtIOIOMMU :=
  ⟨sn.domains.map (fun d => (d.id, ⟨loadMappings d.mappings, d.endpoint_ids, 1⟩)),
   sn.endpoint_ids.map (fun i => (i, ⟨none⟩)),
   ns, b, rr, m⟩

/-- `reconstruct_ep_domain_link` for one endpoint id: scan the domains in
order; in the first one whose endpoint list holds the id, replace the
placeholder by the canonical endpoint at the head of the list and report
that domain's id. -/
def reconstruct_ep_domain_link (epId : Nat) :
    List (Nat × viommu_domain) → List (Nat × viommu_domain) × Option Nat
  | [] => ([], none)
  | (k, d) :: rest =>
    if epId ∈ d.endpoint_list then
      ((k, { d with endpoint_list := epId :: d.endpoint_list.erase epId }) :: rest, some k)
    else
      let r := reconstruct_ep_domain_link epId rest
      ((k, d) :: r.1, r.2)

/-- `iommu_post_load` / `fix_endpoint`: for every endpoint (in id order)
rebuild its endpoint-to-domain link from the domains' endpoint lists. -/
def iommu_post_load (s : VirtIOIOMMU) : VirtIOIOMMU :=
  (s.endpoints.map Prod.fst).foldl
    (fun st eid =>
      let r := reconstruct_ep_domain_link eid st.domains
      { st with domains := r.1,
                endpoints := tblUpdate eid (fun _ => ⟨r.2⟩) st.endpoints }) s

/-- Save then load on the same device configuration, including the
post-load fix-up. -/
def vmstateRoundTrip (s : VirtIOIOMMU) : VirtIOIOMMU :=
  iommu_post_load (vmstateLoadRaw (vmstateSave s) s.notifiers_list s.bypass_allowed
    s.reserved_regions s.page_size_mask)

/-! ### Well-formedness -/

/-- A well-formed mapping table: intervals with `low ≤ high`, listed in
ascending disjoint order (the in-order sequence of a tree of
non-overlapping intervals). -/
def mappingsWF (ms : List (viommu_interval × viommu_mapping)) : Prop :=
  (∀ p ∈ ms, p.1.low ≤ p.1.high) ∧
  List.Pairwise (fun a b => a.1.high < b.1.low) ms

/-- Well-formed device state: tables in strictly ascending key order,
well-formed mapping tables, duplicate-free endpoint lists, and mutually
consistent endpoint↔domain links. -/
def StateWF (s : VirtIOIOMMU) : Prop :=
  List.Chain' (· < ·) (s.domains.map Prod.fst) ∧
  List.Chain' (· < ·) (s.endpoints.map Prod.fst) ∧
  (∀ p ∈ s.domains, mappingsWF p.2.mappings ∧ p.2.endpoint_list.Nodup) ∧
  (∀ p ∈ s.endpoints,
    (p.2.domain = none ∨
      ∃ q ∈ s.domains, p.2.domain = some q.1 ∧ p.1 ∈ q.2.endpoint_list) ∧
    (p.2.domain = none → ∀ q ∈ s.domains, p.1 ∉ q.2.endpoint_list)) ∧
  (∀ q ∈ s.domains, ∀ eid ∈ q.2.endpoint_list,
    tblLookup eid s.endpoints = some ⟨some q.1⟩)

/-- Observable agreement of two domain entries: same key, same mapping
table, same endpoint membership (order aside), no duplicates introduced. -/
def domRel (a b : Nat × viommu_domain) : Prop :=
  a.1 = b.1 ∧ a.2.mappings = b.2.mappings ∧
  (∀ x, x ∈ a.2.endpoint_list ↔ x ∈ b.2.endpoint_list) ∧
  (b.2.endpoint_list.Nodup → a.2.endpoint_list.Nodup)

/-- Entrywise observable agreement of two domain tables. -/
def DomsRel (ds ds' : List (Nat × viommu_domain)) : Prop := List.Forall₂ domRel ds ds'

instance (ms : List (viommu_interval × viommu_mapping)) : Decidable (mappingsWF ms) :=
  inferInstanceAs (Decidable ((∀ p ∈ ms, p.1.low ≤ p.1.high) ∧
    List.Pairwise (fun a b : viommu_interval × viommu_mapping => a.1.high < b.1.low) ms))

instance (s : VirtIOIOMMU) : Decidable (StateWF s) :=
  decidable_of_iff (List.Pairwise (· < ·) (s.domains.map Prod.fst) ∧
    List.Pairwise (· < ·) (s.endpoints.map Prod.fst) ∧
    (∀ p ∈ s.domains, mappingsWF p.2.mappings ∧ p.2.endpoint_list.Nodup) ∧
    (∀ p ∈ s.endpoints,
      (p.2.domain = none ∨
        ∃ q ∈ s.domains, p.2.domain = some q.1 ∧ p.1 ∈ q.2.endpoint_list) ∧
      (p.2.domain = none → ∀ q ∈ s.domains, p.1 ∉ q.2.endpoint_list)) ∧
    (∀ q ∈ s.domains, ∀ eid ∈ q.2.endpoint_list,
      tblLookup eid s.endpoints = some ⟨some q.1⟩))
    (by unfold StateWF
        rw [List.chain'_iff_pairwise, List.chain'_iff_pairwise])

instance (s : VirtIOIOMMU) : Decidable (domainsNonOverlapping s) := by
  unfold domainsNonOverlapping; infer_instance

/-- Every MAP notification in a list carries `IOMMU_RW`. -/
def mapEventsRW (l : List IOMMUEvent) : Prop :=
  ∀ sid i pa sz pm, IOMMUEvent.map sid i pa sz pm ∈ l → pm = IOMMU_RW

/-! ### Concrete device runs used as evaluation witnesses -/

/-- A freshly realized device with no reserved regions and 4K pages. -/
def exS0 : VirtIOIOMMU := initState false [] 4096

/-- ATTACH domain 1, endpoint 7 (24-byte out buffer, 4-byte in buffer). -/
def exAttachElem : VirtQueueElem := ⟨24, 4, 1, 1, 7, 0, 0, 0, 0⟩

/-- MAP domain 1, `[0, 0xFFF] → 0x10000`, read-write. -/
def exMapElem : VirtQueueElem := ⟨40, 4, 3, 1, 0, 0, 4095, 65536, 3⟩

/-- An ATTACH element whose out buffer is shorter than the request. -/
def exShortElem : VirtQueueElem := ⟨10, 8, 1, 0, 0, 0, 0, 0, 0⟩

/-- A PROBE element with a short out buffer and a 4-byte in buffer: big
enough for the plain tail, far too small for the probe response, so the
PROBE arm's assertion fails and no tail is written. -/
def exProbeShortElem : VirtQueueElem := ⟨10, 4, 5, 0, 0, 0, 0, 0, 0⟩

/-- The state after `exAttachElem` on `exS0`. -/
def exS1 : VirtIOIOMMU := ⟨[(1, ⟨[], [7], 2⟩)], [(7, ⟨some 1⟩)], [], false, [], 4096⟩

/-- The domain record of `exS2`. -/
def exD2 : viommu_domain := ⟨[(⟨0, 4095⟩, ⟨65536, 3⟩)], [7], 2⟩

/-- The state after `exAttachElem` then `exMapElem` on `exS0`. -/
def exS2 : VirtIOIOMMU := ⟨[(1, exD2)], [(7, ⟨some 1⟩)], [], false, [], 4096⟩

/-- A state holding one mapping `[6, 10] → 100` for endpoint 7 in domain 0:
the translator's degenerate lookup interval `[5, 6]` overlaps `[6, 10]`
without containing 5. -/
def exSquirk : VirtIOIOMMU :=
  ⟨[(0, ⟨[(⟨6, 10⟩, ⟨100, 3⟩)], [7], 2⟩)], [(7, ⟨some 0⟩)], [], false, [], 4096⟩

/-- A one-entry interval map whose key starts just after iova 5. -/
def exMs5 : List (viommu_interval × viommu_mapping) := [(⟨6, 10⟩, ⟨100, 3⟩)]

/-- `exS2` with a notifier subscribed to endpoint 7. -/
def exS2n : VirtIOIOMMU := ⟨[(1, exD2)], [(7, ⟨some 1⟩)], [7], false, [], 4096⟩

/-- MAP domain 1, `[0x2000, 0x2FFF] → 0x30000`, read-only. -/
def exMapElem2 : VirtQueueElem := ⟨40, 4, 3, 1, 0, 8192, 12287, 196608, 1⟩

/-- The domain record of `exS2n` after `exMapElem2`. -/
def exD2b : viommu_domain :=
  ⟨[(⟨0, 4095⟩, ⟨65536, 3⟩), (⟨8192, 12287⟩, ⟨196608, 1⟩)], [7], 2⟩

/-- The state of `exS2n` after `exMapElem2`. -/
def exS2b : VirtIOIOMMU := ⟨[(1, exD2b)], [(7, ⟨some 1⟩)], [7], false, [], 4096⟩

/-! ### Basic facts about the comparator -/

theorem interval_cmp_eq_zero_iff (a b : viommu_interval) :
    interval_cmp a b = 0 ↔ b.low ≤ a.high ∧ a.low ≤ b.high := by
  constructor
  · intro h
    unfold interval_cmp at h
    split at h
    · exact absurd h (by decide)
    · split at h
      · exact absurd h (by decide)
      · rename_i h1 h2
        omega
  · intro h
    unfold interval_cmp
    rw [if_neg (by omega), if_neg (by omega)]

theorem interval_cmp_zero_symm (a b : viommu_interval) :
    interval_cmp a b = 0 ↔ interval_cmp b a = 0 := by
  rw [interval_cmp_eq_zero_iff, interval_cmp_eq_zero_iff]
  constructor <;> exact fun h => ⟨h.2, h.1⟩

theorem interval_cmp_eq_one_of {a b : viommu_interval} (ha : a.low ≤ a.high)
    (hb : b.low ≤ b.high) (h : b.high < a.low) : interval_cmp a b = 1 := by
  unfold interval_cmp
  rw [if_neg (by omega), if_pos h]

theorem sharesPoint_cmp_zero {a b : viommu_interval} (h : sharesPoint a b) :
    interval_cmp a b = 0 := by
  obtain ⟨x, h1, h2, h3, h4⟩ := h
  rw [interval_cmp_eq_zero_iff]
  exact ⟨le_trans h3 h2, le_trans h1 h4⟩

/-! ### Basic facts about the id-keyed tables -/

theorem tblLookup_eq_none {α : Type} {k : Nat} {t : List (Nat × α)}
    (h : ∀ p ∈ t, p.1 ≠ k) : tblLookup k t = none := by
  unfold tblLookup
  rw [List.find?_eq_none.mpr]
  · rfl
  · intro p hp
    simpa using h p hp

theorem tblLookup_mem {α : Type} {k : Nat} {t : List (Nat × α)} {v : α}
    (h : tblLookup k t = some v) : (k, v) ∈ t := by
  unfold tblLookup at h
  cases hf : t.find? (fun p => p.1 == k) with
  | none => rw [hf] at h; simp at h
  | some p =>
    rw [hf] at h
    have hm := List.mem_of_find?_eq_some hf
    have hk := List.find?_some hf
    simp at h hk
    rcases p with ⟨k', v'⟩
    simp at hk
    subst hk
    simp at h
    subst h
    exact hm

theorem tblLookup_none_update {α : Type} (k : Nat) (f : α → α) (t : List (Nat × α))
    (h : tblLookup k t = none) : tblUpdate k f t = t := by
  induction t with
  | nil => rfl
  | cons p rest ih =>
    unfold tblLookup at h
    rcases p with ⟨k', v⟩
    by_cases hk : k' = k
    · subst hk
      simp [List.find?_cons] at h
    · rw [List.find?_cons_of_neg] at h
      · unfold tblUpdate
        simp [hk]
        exact ih h
      · simp [hk]

/-- Decompose a table around the entry a successful lookup returns, and the
effect of `tblUpdate` on it. -/
theorem tblLookup_some_decomp {α : Type} {k : Nat} {t : List (Nat × α)} {v : α}
    (h : tblLookup k t = some v) :
    ∃ t₁ t₂, t = t₁ ++ (k, v) :: t₂ ∧ (∀ p ∈ t₁, p.1 ≠ k) ∧
      ∀ f, tblUpdate k f t = t₁ ++ (k, f v) :: t₂ := by
  induction t with
  | nil => simp [tblLookup] at h
  | cons p rest ih =>
    rcases p with ⟨k', v'⟩
    by_cases hk : k' = k
    · subst hk
      unfold tblLookup at h
      rw [List.find?_cons_of_pos] at h
      · simp at h
        subst h
        exact ⟨[], rest, by simp, by simp, fun f => by unfold tblUpdate; simp⟩
      · simp
    · unfold tblLookup at h
      rw [List.find?_cons_of_neg] at h
      · obtain ⟨t₁, t₂, he, hne, hu⟩ := ih h
        refine ⟨(k', v') :: t₁, t₂, by simp [he], ?_, fun f => ?_⟩
        · intro p hp
          rcases List.mem_cons.mp hp with h1 | h1
          · subst h1; exact hk
          · exact hne p h1
        · unfold tblUpdate
          simp [hk, hu f]
      · simp [hk]

theorem tblUpdate_mem {α : Type} {k : Nat} {f : α → α} {t : List (Nat × α)} {p : Nat × α}
    (hp : p ∈ tblUpdate k f t) : p ∈ t ∨ ∃ q ∈ t, q.1 = k ∧ p = (q.1, f q.2) := by
  induction t with
  | nil => simp [tblUpdate] at hp
  | cons q rest ih =>
    rcases q with ⟨k', v⟩
    unfold tblUpdate at hp
    by_cases hk : k' = k
    · simp [hk] at hp
      rcases hp with h1 | h1
      · exact Or.inr ⟨(k', v), by simp, hk, by simp [h1, hk]⟩
      · exact Or.inl (List.mem_cons_of_mem _ h1)
    · simp [hk] at hp
      rcases hp with h1 | h1
      · exact Or.inl (by simp [h1])
      · rcases ih h1 with h2 | ⟨q, hq1, hq2, hq3⟩
        · exact Or.inl (List.mem_cons_of_mem _ h2)
        · exact Or.inr ⟨q, List.mem_cons_of_mem _ hq1, hq2, hq3⟩

theorem tblInsert_mem {α : Type} {k : Nat} {v : α} {t : List (Nat × α)} {p : Nat × α}
    (hp : p ∈ tblInsert k v t) : p = (k, v) ∨ p ∈ t := by
  induction t with
  | nil => simp [tblInsert] at hp; exact Or.inl hp
  | cons q rest ih =>
    rcases q with ⟨k', v'⟩
    unfold tblInsert at hp
    split at hp
    · rcases List.mem_cons.mp hp with h1 | h1
      · exact Or.inl h1
      · exact Or.inr h1
    · split at hp
      · rcases List.mem_cons.mp hp with h1 | h1
        · exact Or.inl h1
        · exact Or.inr (List.mem_cons_of_mem _ h1)
      · rcases List.mem_cons.mp hp with h1 | h1
        · exact Or.inr (by simp [h1])
        · rcases ih h1 with h2 | h2
          · exact Or.inl h2
          · exact Or.inr (List.mem_cons_of_mem _ h2)

/-- Keep a predicate over the values of a table through `tblUpdate`, using a
fact about the updated value of the looked-up entry. -/
theorem tblUpdate_forall_of_lookup {α : Type} {P : α → Prop} {k : Nat} {f : α → α}
    {t : List (Nat × α)} {v : α} (h : ∀ p ∈ t, P p.2) (hl : tblLookup k t = some v)
    (hv : P (f v)) : ∀ p ∈ tblUpdate k f t, P p.2 := by
  obtain ⟨t₁, t₂, he, _, hu⟩ := tblLookup_some_decomp hl
  rw [hu f]
  intro p hp
  rcases List.mem_append.mp hp with h1 | h1
  · exact h p (by rw [he]; exact List.mem_append_left _ h1)
  · rcases List.mem_cons.mp h1 with h2 | h2
    · rw [h2]
      exact hv
    · exact h p (by rw [he]; exact List.mem_append_right _ (List.mem_cons_of_mem _ h2))

theorem tblUpdate_forall {α : Type} {P : α → Prop} {k : Nat} {f : α → α}
    {t : List (Nat × α)} (h : ∀ p ∈ t, P p.2) (hf : ∀ v, P v → P (f v)) :
    ∀ p ∈ tblUpdate k f t, P p.2 := by
  intro p hp
  rcases tblUpdate_mem hp with h1 | ⟨q, hq1, _, hq3⟩
  · exact h p h1
  · rw [hq3]
    exact hf q.2 (h q hq1)

theorem tblInsert_forall {α : Type} {P : α → Prop} {k : Nat} {v : α}
    {t : List (Nat × α)} (h : ∀ p ∈ t, P p.2) (hv : P v) :
    ∀ p ∈ tblInsert k v t, P p.2 := by
  intro p hp
  rcases tblInsert_mem hp with h1 | h1
  · rw [h1]
    exact hv
  · exact h p h1

/-! ### Facts about the interval map -/

theorem gtreeLookup_eq_none_iff (q : viommu_interval)
    (ms : List (viommu_interval × viommu_mapping)) :
    gtreeLookup q ms = none ↔ ∀ p ∈ ms, interval_cmp q p.1 ≠ 0 := by
  unfold gtreeLookup
  rw [List.find?_eq_none]
  constructor
  · intro h p hp
    simpa using h p hp
  · intro h p hp
    simpa using h p hp

theorem gtreeInsert_mem {k : viommu_interval} {v : viommu_mapping}
    {ms : List (viommu_interval × viommu_mapping)} {p : viommu_interval × viommu_mapping}
    (hno : ∀ q ∈ ms, interval_cmp k q.1 ≠ 0) (hp : p ∈ gtreeInsert k v ms) :
    p = (k, v) ∨ p ∈ ms := by
  induction ms with
  | nil => simp [gtreeInsert] at hp; exact Or.inl hp
  | cons q rest ih =>
    rcases q with ⟨k', v'⟩
    unfold gtreeInsert at hp
    split at hp
    · rcases List.mem_cons.mp hp with h1 | h1
      · exact Or.inl h1
      · exact Or.inr h1
    · split at hp
      · exact absurd (by assumption) (hno (k', v') (by simp))
      · rcases List.mem_cons.mp hp with h1 | h1
        · exact Or.inr (by simp [h1])
        · rcases ih (fun q hq => hno q (List.mem_cons_of_mem _ hq)) h1 with h2 | h2
          · exact Or.inl h2
          · exact Or.inr (List.mem_cons_of_mem _ h2)

/-- Inserting a key that overlaps no existing key keeps the table pairwise
non-overlapping. -/
theorem gtreeInsert_pairwise {k : viommu_interval} {v : viommu_mapping}
    {ms : List (viommu_interval × viommu_mapping)}
    (hno : ∀ q ∈ ms, interval_cmp k q.1 ≠ 0)
    (hp : List.Pairwise (fun a b => interval_cmp a.1 b.1 ≠ 0) ms) :
    List.Pairwise (fun a b => interval_cmp a.1 b.1 ≠ 0) (gtreeInsert k v ms) := by
  induction ms with
  | nil => simp [gtreeInsert]
  | cons q rest ih =>
    rcases q with ⟨k', v'⟩
    unfold gtreeInsert
    split
    · refine List.Pairwise.cons ?_ hp
      intro b hb
      exact hno b hb
    · split
      · exact absurd (by assumption) (hno (k', v') (by simp))
      · rcases List.pairwise_cons.mp hp with ⟨hhead, htail⟩
        refine List.Pairwise.cons ?_ (ih (fun q hq => hno q (List.mem_cons_of_mem _ hq)) htail)
        intro b hb
        rcases gtreeInsert_mem (fun q hq => hno q (List.mem_cons_of_mem _ hq)) hb with h1 | h1
        · rw [h1]
          intro hc
          exact hno (k', v') (by simp) ((interval_cmp_zero_symm _ _).mpr hc)
        · exact hhead b h1

/-! ### Facts about the UNMAP removal loop -/

theorem unmapLoop_none {q : viommu_interval} {ms : List (viommu_interval × viommu_mapping)}
    (h : ms.find? (fun p => interval_cmp q p.1 == 0) = none) :
    unmapLoop q ms = (ms, [], S_OK) := by
  rw [unmapLoop]
  split
  · rfl
  · rename_i kv heq
    rw [h] at heq
    simp at heq

theorem unmapLoop_cov {q : viommu_interval} {ms : List (viommu_interval × viommu_mapping)}
    {kv : viommu_interval × viommu_mapping}
    (h : ms.find? (fun p => interval_cmp q p.1 == 0) = some kv)
    (hcov : q.low ≤ kv.1.low ∧ kv.1.high ≤ q.high) :
    unmapLoop q ms = ((unmapLoop q (ms.erase kv)).1,
      kv.1 :: (unmapLoop q (ms.erase kv)).2.1, (unmapLoop q (ms.erase kv)).2.2) := by
  rw [unmapLoop]
  split
  · rename_i heq
    rw [h] at heq
    simp at heq
  · rename_i kv' heq
    rw [h] at heq
    injection heq with heq
    subst heq
    rw [if_pos hcov]

theorem unmapLoop_range {q : viommu_interval} {ms : List (viommu_interval × viommu_mapping)}
    {kv : viommu_interval × viommu_mapping}
    (h : ms.find? (fun p => interval_cmp q p.1 == 0) = some kv)
    (hncov : ¬(q.low ≤ kv.1.low ∧ kv.1.high ≤ q.high)) :
    unmapLoop q ms = (ms, [], S_RANGE) := by
  rw [unmapLoop]
  split
  · rename_i heq
    rw [h] at heq
    simp at heq
  · rename_i kv' heq
    rw [h] at heq
    injection heq with heq
    subst heq
    rw [if_neg hncov]

theorem unmapLoop_sublist (q : viommu_interval)
    (ms : List (viommu_interval × viommu_mapping)) :
    List.Sublist (unmapLoop q ms).1 ms := by
  induction ms using unmapLoop.induct q with
  | case1 ms h =>
    rw [unmapLoop_none h]
  | case2 ms kv hfind hcov ih =>
    rw [unmapLoop_cov hfind hcov]
    exact ih.trans (List.erase_sublist kv ms)
  | case3 ms kv hfind hcov =>
    rw [unmapLoop_range hfind hcov]

/-! ### Non-overlap is preserved by every operation -/

theorem dno_congr {s s' : VirtIOIOMMU} (hd : s'.domains = s.domains)
    (h : domainsNonOverlapping s) : domainsNonOverlapping s' := by
  intro p hp
  rw [hd] at hp
  exact h p hp

theorem domains_get_endpoint (s : VirtIOIOMMU) (e : Nat) :
    (virtio_iommu_get_endpoint s e).domains = s.domains := by
  unfold virtio_iommu_get_endpoint
  cases tblLookup e s.endpoints <;> rfl

theorem dno_get_domain {s : VirtIOIOMMU} (h : domainsNonOverlapping s) (d : Nat) :
    domainsNonOverlapping (virtio_iommu_get_domain s d) := by
  unfold virtio_iommu_get_domain
  cases hl : tblLookup d s.domains with
  | none =>
    simp only [hl]
    unfold domainsNonOverlapping
    dsimp only
    intro p hp
    have h' : ∀ p ∈ s.domains, mappingsNonOverlapPred p.2 := h
    exact @tblInsert_forall viommu_domain mappingsNonOverlapPred d ⟨[], [], 1⟩
      s.domains h' List.Pairwise.nil p hp
  | some _ =>
    simp only [hl]
    exact h

theorem dno_detach_ep {s : VirtIOIOMMU} (h : domainsNonOverlapping s) (e : Nat) :
    domainsNonOverlapping (virtio_iommu_detach_endpoint_from_domain s e).1 := by
  unfold virtio_iommu_detach_endpoint_from_domain
  cases hb : (tblLookup e s.endpoints).bind (fun x => x.domain) with
  | none =>
    simp only [hb]
    exact h
  | some did =>
    simp only [hb]
    cases hd : tblLookup did s.domains with
    | none =>
      simp only [hd]
      exact h
    | some d =>
      simp only [hd]
      unfold domainsNonOverlapping
      dsimp only
      intro p hp
      have hdom : ∀ p ∈ s.domains, mappingsNonOverlapPred p.2 := h
      exact @tblUpdate_forall viommu_domain mappingsNonOverlapPred did
        (fun d => { d with endpoint_list := d.endpoint_list.erase e,
                           mappings_refs := d.mappings_refs - 1 })
        s.domains hdom (fun v hv => hv) p hp

theorem dno_attach {s : VirtIOIOMMU} (h : domainsNonOverlapping s) (did eid : Nat) :
    domainsNonOverlapping (virtio_iommu_attach s did eid).1 := by
  have h1 : domainsNonOverlapping (virtio_iommu_get_endpoint s eid) :=
    dno_congr (domains_get_endpoint s eid) h
  unfold virtio_iommu_attach
  dsimp only
  have h2 : domainsNonOverlapping
      (if ((tblLookup eid (virtio_iommu_get_endpoint s eid).endpoints).bind
            (fun e => e.domain)).isSome then
        virtio_iommu_detach_endpoint_from_domain (virtio_iommu_get_endpoint s eid) eid
      else (virtio_iommu_get_endpoint s eid, [])).1 := by
    split
    · exact dno_detach_ep h1 eid
    · exact h1
  have h3 := dno_get_domain h2 did
  have h3' : ∀ p ∈ (virtio_iommu_get_domain
      (if ((tblLookup eid (virtio_iommu_get_endpoint s eid).endpoints).bind
            (fun e => e.domain)).isSome then
        virtio_iommu_detach_endpoint_from_domain (virtio_iommu_get_endpoint s eid) eid
      else (virtio_iommu_get_endpoint s eid, [])).1 did).domains,
      mappingsNonOverlapPred p.2 := h3
  unfold domainsNonOverlapping
  dsimp only
  intro p hp
  exact @tblUpdate_forall viommu_domain mappingsNonOverlapPred did
    (fun d => { d with endpoint_list := eid :: d.endpoint_list,
                       mappings_refs := d.mappings_refs + 1 })
    _ h3' (fun v hv => hv) p hp

theorem dno_detach {s : VirtIOIOMMU} (h : domainsNonOverlapping s) (did eid : Nat) :
    domainsNonOverlapping (virtio_iommu_detach s did eid).1 := by
  unfold virtio_iommu_detach
  cases he : tblLookup eid s.endpoints with
  | none =>
    simp only [he]
    exact h
  | some e =>
    simp only [he]
    cases e.domain with
    | none => exact h
    | some d0 => exact dno_detach_ep h eid

theorem dno_map {s : VirtIOIOMMU} (h : domainsNonOverlapping s)
    (did vs ve ph fl : Nat) :
    domainsNonOverlapping (virtio_iommu_map s did vs ve ph fl).1 := by
  unfold virtio_iommu_map
  dsimp only
  cases hd : tblLookup did s.domains with
  | none =>
    simp only [hd]
    exact h
  | some d =>
    simp only [hd]
    cases hg : gtreeLookup ⟨vs, ve⟩ d.mappings with
    | some _ =>
      simp only [hg]
      exact h
    | none =>
      simp only [hg]
      unfold domainsNonOverlapping
      dsimp only
      intro p hp
      have hno : ∀ q ∈ d.mappings, interval_cmp ⟨vs, ve⟩ q.1 ≠ 0 :=
        (gtreeLookup_eq_none_iff _ _).mp hg
      have hdom : ∀ p ∈ s.domains, mappingsNonOverlapPred p.2 := h
      have hins : mappingsNonOverlapPred
          { d with mappings := gtreeInsert ⟨vs, ve⟩ ⟨ph, fl⟩ d.mappings } :=
        gtreeInsert_pairwise hno (h (did, d) (tblLookup_mem hd))
      exact @tblUpdate_forall_of_lookup viommu_domain mappingsNonOverlapPred did
        (fun d => { d with mappings := gtreeInsert ⟨vs, ve⟩ ⟨ph, fl⟩ d.mappings })
        s.domains d hdom hd hins p hp

theorem dno_unmap {s : VirtIOIOMMU} (h : domainsNonOverlapping s)
    (did vs ve : Nat) :
    domainsNonOverlapping (virtio_iommu_unmap s did vs ve).1 := by
  unfold virtio_iommu_unmap
  dsimp only
  cases hd : tblLookup did s.domains with
  | none =>
    simp only [hd]
    exact h
  | some d =>
    simp only [hd]
    unfold domainsNonOverlapping
    dsimp only
    intro p hp
    have hdom : ∀ p ∈ s.domains, mappingsNonOverlapPred p.2 := h
    have hrem : mappingsNonOverlapPred
        { d with mappings := (unmapLoop ⟨vs, ve⟩ d.mappings).1 } :=
      (h (did, d) (tblLookup_mem hd)).sublist (unmapLoop_sublist _ _)
    exact @tblUpdate_forall_of_lookup viommu_domain mappingsNonOverlapPred did
      (fun d0 => { d0 with mappings := (unmapLoop ⟨vs, ve⟩ d.mappings).1 })
      s.domains d hdom hd hrem p hp

theorem dno_of_triple {s' : VirtIOIOMMU} {evs : List IOMMUEvent} {st : Nat}
    {r : VirtIOIOMMU × List IOMMUEvent × Nat} (hc : r = (s', evs, st))
    (h : domainsNonOverlapping r.1) : domainsNonOverlapping s' := by
  rw [hc] at h
  exact h

theorem dno_command {s s' : VirtIOIOMMU} {e : VirtQueueElem} {evs : List IOMMUEvent}
    {st : Nat} (h : domainsNonOverlapping s)
    (hc : virtio_iommu_handle_command s e = some (s', evs, st)) :
    domainsNonOverlapping s' := by
  unfold virtio_iommu_handle_command at hc
  split at hc
  · exact absurd hc (by simp)
  · split at hc
    · split at hc
      · exact absurd hc (by simp)
      · rw [Option.some_inj] at hc
        exact dno_of_triple hc h
    · rw [Option.some_inj] at hc
      split at hc
      · split at hc
        · exact dno_of_triple hc h
        · exact dno_of_triple hc (dno_attach h _ _)
      · split at hc
        · split at hc
          · exact dno_of_triple hc h
          · exact dno_of_triple hc (dno_detach h _ _)
        · split at hc
          · split at hc
            · exact dno_of_triple hc h
            · exact dno_of_triple hc (dno_map h _ _ _ _ _)
          · split at hc
            · split at hc
              · exact dno_of_triple hc h
              · exact dno_of_triple hc (dno_unmap h _ _ _)
            · exact dno_of_triple hc h

theorem dno_step {s s' : VirtIOIOMMU} (h : domainsNonOverlapping s) (hs : Step s s') :
    domainsNonOverlapping s' := by
  cases hs with
  | command e s2 evs st hc => exact dno_command h hc
  | notifierAdd sid => exact dno_congr rfl h
  | notifierDel sid => exact dno_congr rfl h

theorem dno_reachable {s : VirtIOIOMMU} (h : Reachable s) : domainsNonOverlapping s := by
  induction h with
  | init b rr m => intro p hp; simp [initState] at hp
  | step _ hs ih => exact dno_step ih hs

/-! ### Characterization of the UNMAP removal loop -/

theorem tblLookup_update_self {α : Type} {k : Nat} {t : List (Nat × α)} {v : α}
    (h : tblLookup k t = some v) (f : α → α) :
    tblLookup k (tblUpdate k f t) = some (f v) := by
  induction t with
  | nil => simp [tblLookup] at h
  | cons p rest ih =>
    rcases p with ⟨k', v'⟩
    by_cases hk : k' = k
    · subst hk
      unfold tblLookup at h ⊢
      rw [List.find?_cons_of_pos _ (by simp)] at h
      simp at h
      subst h
      unfold tblUpdate
      rw [if_pos rfl]
      rw [List.find?_cons_of_pos _ (by simp)]
      rfl
    · unfold tblLookup at h
      rw [List.find?_cons_of_neg _ (by simp [hk])] at h
      unfold tblUpdate
      simp only [if_neg hk]
      unfold tblLookup
      rw [List.find?_cons_of_neg _ (by simp [hk])]
      exact ih h

/-- Erasing an element the filter drops does not change the filter. -/
theorem filter_erase_of_neg {f : viommu_interval × viommu_mapping → Bool}
    {a : viommu_interval × viommu_mapping} (hf : f a = false)
    (l : List (viommu_interval × viommu_mapping)) :
    (l.erase a).filter f = l.filter f := by
  induction l with
  | nil => rfl
  | cons b rest ih =>
    by_cases hb : b = a
    · subst hb
      rw [List.erase_cons_head]
      simp [List.filter_cons, hf]
    · rw [List.erase_cons_tail (by simp [hb])]
      simp only [List.filter_cons]
      cases hfb : f b
      · simpa [hfb] using ih
      · simpa [hfb] using ih

/-- The first element the filter keeps heads the filter, and erasing it
drops exactly it. -/
theorem filter_cons_of_find? {f : viommu_interval × viommu_mapping → Bool}
    {a : viommu_interval × viommu_mapping} {l : List (viommu_interval × viommu_mapping)}
    (h : l.find? f = some a) :
    l.filter f = a :: (l.erase a).filter f := by
  induction l with
  | nil => simp at h
  | cons b rest ih =>
    cases hfb : f b
    · rw [List.find?_cons_of_neg _ (by simp [hfb])] at h
      have hb : b ≠ a := by
        intro hba
        rw [hba] at hfb
        rw [List.find?_some h] at hfb
        simp at hfb
      rw [List.erase_cons_tail (by simp [hb])]
      simp only [List.filter_cons, hfb]
      simpa using ih h
    · rw [List.find?_cons_of_pos _ hfb] at h
      simp at h
      subst h
      rw [List.erase_cons_head]
      simp [List.filter_cons, hfb]

theorem unmapLoop_status (q : viommu_interval)
    (ms : List (viommu_interval × viommu_mapping)) :
    (unmapLoop q ms).2.2 = S_OK ∨ (unmapLoop q ms).2.2 = S_RANGE := by
  induction ms using unmapLoop.induct q with
  | case1 ms h =>
    rw [unmapLoop_none h]
    exact Or.inl rfl
  | case2 ms kv hfind hcov ih =>
    rw [unmapLoop_cov hfind hcov]
    exact ih
  | case3 ms kv hfind hcov =>
    rw [unmapLoop_range hfind hcov]
    exact Or.inr rfl

/-- The loop answers `S_RANGE` exactly when a key overlapping the query is
not fully covered by it. -/
theorem unmapLoop_range_iff (q : viommu_interval)
    (ms : List (viommu_interval × viommu_mapping)) :
    (unmapLoop q ms).2.2 = S_RANGE ↔
      ∃ p ∈ ms, interval_cmp q p.1 = 0 ∧ ¬(q.low ≤ p.1.low ∧ p.1.high ≤ q.high) := by
  induction ms using unmapLoop.induct q with
  | case1 ms h =>
    rw [unmapLoop_none h]
    dsimp only
    constructor
    · intro hx
      exact absurd hx (by decide)
    · rintro ⟨p, hp, hcmp, -⟩
      have := List.find?_eq_none.mp h p hp
      simp [hcmp] at this
  | case2 ms kv hfind hcov ih =>
    rw [unmapLoop_cov hfind hcov]
    dsimp only
    rw [ih]
    constructor
    · rintro ⟨p, hp, hcmp, hncov⟩
      exact ⟨p, List.mem_of_mem_erase hp, hcmp, hncov⟩
    · rintro ⟨p, hp, hcmp, hncov⟩
      refine ⟨p, ?_, hcmp, hncov⟩
      have hne : p ≠ kv := by
        intro he
        subst he
        exact hncov hcov
      exact (List.mem_erase_of_ne hne).mpr hp
  | case3 ms kv hfind hcov =>
    rw [unmapLoop_range hfind hcov]
    dsimp only
    refine iff_of_true rfl ⟨kv, List.mem_of_find?_eq_some hfind, ?_, hcov⟩
    have := List.find?_some hfind
    simpa using this

/-- On the `S_OK` path the loop removes exactly the overlapping entries. -/
theorem unmapLoop_ok_filter (q : viommu_interval)
    (ms : List (viommu_interval × viommu_mapping))
    (h : (unmapLoop q ms).2.2 = S_OK) :
    (unmapLoop q ms).1 = ms.filter (fun p => !(interval_cmp q p.1 == 0)) := by
  induction ms using unmapLoop.induct q with
  | case1 ms hf =>
    rw [unmapLoop_none hf]
    dsimp only
    rw [List.filter_eq_self.mpr]
    intro p hp
    have := List.find?_eq_none.mp hf p hp
    simpa using this
  | case2 ms kv hfind hcov ih =>
    rw [unmapLoop_cov hfind hcov] at h ⊢
    dsimp only at h ⊢
    rw [ih h]
    exact @filter_erase_of_neg (fun p => !(interval_cmp q p.1 == 0)) kv
      (by have := List.find?_some hfind; simpa using this) ms
  | case3 ms kv hfind hcov =>
    rw [unmapLoop_range hfind hcov] at h
    dsimp only at h
    exact absurd h (by decide)

/-- Every removed key was an overlapping, fully covered key of the table. -/
theorem unmapLoop_removed_spec (q : viommu_interval)
    (ms : List (viommu_interval × viommu_mapping)) :
    ∀ k ∈ (unmapLoop q ms).2.1, (∃ v, (k, v) ∈ ms) ∧ interval_cmp q k = 0 ∧
      q.low ≤ k.low ∧ k.high ≤ q.high := by
  induction ms using unmapLoop.induct q with
  | case1 ms hf =>
    rw [unmapLoop_none hf]
    intro k hk
    simp at hk
  | case2 ms kv hfind hcov ih =>
    rw [unmapLoop_cov hfind hcov]
    intro k hk
    rcases List.mem_cons.mp hk with h1 | h1
    · subst h1
      refine ⟨⟨kv.2, List.mem_of_find?_eq_some hfind⟩, ?_, hcov.1, hcov.2⟩
      have := List.find?_some hfind
      simpa using this
    · obtain ⟨⟨v, hv⟩, hcmp, hc1, hc2⟩ := ih k h1
      exact ⟨⟨v, List.mem_of_mem_erase hv⟩, hcmp, hc1, hc2⟩
  | case3 ms kv hfind hcov =>
    rw [unmapLoop_range hfind hcov]
    intro k hk
    simp at hk

/-- On the `S_OK` path the removed keys are the overlapping keys in table
order. -/
theorem unmapLoop_ok_removed (q : viommu_interval)
    (ms : List (viommu_interval × viommu_mapping))
    (h : (unmapLoop q ms).2.2 = S_OK) :
    (unmapLoop q ms).2.1 =
      (ms.filter (fun p => interval_cmp q p.1 == 0)).map Prod.fst := by
  induction ms using unmapLoop.induct q with
  | case1 ms hf =>
    rw [unmapLoop_none hf]
    dsimp only
    rw [List.filter_eq_nil_iff.mpr]
    · rfl
    · intro p hp
      have := List.find?_eq_none.mp hf p hp
      simpa using this
  | case2 ms kv hfind hcov ih =>
    rw [unmapLoop_cov hfind hcov] at h ⊢
    dsimp only at h ⊢
    rw [ih h, filter_cons_of_find? hfind]
    rfl
  | case3 ms kv hfind hcov =>
    rw [unmapLoop_range hfind hcov] at h
    dsimp only at h
    exact absurd h (by decide)

/-- Entries that do not overlap the query survive the loop, whatever the
status. -/
theorem unmapLoop_keep (q : viommu_interval)
    (ms : List (viommu_interval × viommu_mapping)) :
    ∀ p ∈ ms, interval_cmp q p.1 ≠ 0 → p ∈ (unmapLoop q ms).1 := by
  induction ms using unmapLoop.induct q with
  | case1 ms hf =>
    rw [unmapLoop_none hf]
    intro p hp _
    exact hp
  | case2 ms kv hfind hcov ih =>
    rw [unmapLoop_cov hfind hcov]
    intro p hp hcmp
    have hne : p ≠ kv := by
      intro he
      subst he
      have := List.find?_some hfind
      simp at this
      exact hcmp this
    exact ih p ((List.mem_erase_of_ne hne).mpr hp) hcmp
  | case3 ms kv hfind hcov =>
    rw [unmapLoop_range hfind hcov]
    intro p hp _
    exact hp

/-- In a well-formed table an element is gone after its erase. -/
theorem wf_not_mem_erase {ms : List (viommu_interval × viommu_mapping)}
    {kv : viommu_interval × viommu_mapping} (hwf : mappingsWF ms) (hm : kv ∈ ms) :
    ∀ v, (kv.1, v) ∉ ms.erase kv := by
  intro v hv
  obtain ⟨l₁, l₂, hnm, he, her⟩ := List.exists_erase_eq hm
  rw [her] at hv
  rw [he] at hwf
  obtain ⟨hlh, hpw⟩ := hwf
  rw [List.pairwise_append] at hpw
  have hwfk : kv.1.low ≤ kv.1.high := hlh kv (by simp)
  rcases List.mem_append.mp hv with h1 | h1
  · have := hpw.2.2 _ h1 kv (by simp)
    simp at this
    omega
  · have := (List.pairwise_cons.mp hpw.2.1).1 _ h1
    simp at this
    omega

theorem mappingsWF_sublist {ms ms' : List (viommu_interval × viommu_mapping)}
    (hs : List.Sublist ms' ms) (hwf : mappingsWF ms) : mappingsWF ms' :=
  ⟨fun p hp => hwf.1 p (hs.subset hp), hwf.2.sublist hs⟩

/-- In a well-formed table, a removed key is gone from the loop's result. -/
theorem unmapLoop_removed_gone (q : viommu_interval)
    (ms : List (viommu_interval × viommu_mapping)) (hwf : mappingsWF ms) :
    ∀ k ∈ (unmapLoop q ms).2.1, ∀ v, (k, v) ∉ (unmapLoop q ms).1 := by
  induction ms using unmapLoop.induct q with
  | case1 ms hf =>
    rw [unmapLoop_none hf]
    intro k hk
    simp at hk
  | case2 ms kv hfind hcov ih =>
    rw [unmapLoop_cov hfind hcov]
    dsimp only
    have hwf' : mappingsWF (ms.erase kv) :=
      mappingsWF_sublist (List.erase_sublist kv ms) hwf
    intro k hk v hv
    rcases List.mem_cons.mp hk with h1 | h1
    · subst h1
      have hsub : (kv.1, v) ∈ ms.erase kv :=
        (unmapLoop_sublist q (ms.erase kv)).subset hv
      exact wf_not_mem_erase hwf (List.mem_of_find?_eq_some hfind) v hsub
    · exact ih hwf' k h1 v hv
  | case3 ms kv hfind hcov =>
    rw [unmapLoop_range hfind hcov]
    intro k hk
    simp at hk

theorem tblLookup_insert_self {α : Type} (k : Nat) (v : α) (t : List (Nat × α)) :
    tblLookup k (tblInsert k v t) = some v := by
  induction t with
  | nil =>
    unfold tblInsert tblLookup
    rw [List.find?_cons_of_pos _ (by simp)]
    rfl
  | cons p rest ih =>
    rcases p with ⟨k', v'⟩
    unfold tblInsert
    split
    · unfold tblLookup
      rw [List.find?_cons_of_pos _ (by simp)]
      rfl
    · split
      · unfold tblLookup
        rw [List.find?_cons_of_pos _ (by simp)]
        rfl
      · rename_i h1 h2
        unfold tblLookup
        rw [List.find?_cons_of_neg _ (by simp; omega)]
        exact ih

/-! ### Claim C2 -/

/-- C2: in every state reachable through any sequence of
ATTACH/DETACH/MAP/UNMAP commands (and notifier registrations), the
intervals keyed in any single domain's mapping table are pairwise
non-overlapping; moreover MAP refuses with `S_INVAL`, leaving the state
unchanged, any insertion whose interval shares a point with an existing key
of the domain, and no other operation inserts intervals. -/
theorem C2_reachable_nonoverlap (s : VirtIOIOMMU) (h : Reachable s) :
    domainsNonOverlapping s ∧
    ∀ did d vs ve ph fl, tblLookup did s.domains = some d →
      (∃ p ∈ d.mappings, sharesPoint ⟨vs, ve⟩ p.1) →
      virtio_iommu_map s did vs ve ph fl = (s, [], S_INVAL) := by
  refine ⟨dno_reachable h, ?_⟩
  rintro did d vs ve ph fl hd ⟨p, hp, hsp⟩
  unfold virtio_iommu_map
  dsimp only
  rw [hd]
  cases hg : gtreeLookup ⟨vs, ve⟩ d.mappings with
  | none =>
    exact absurd (sharesPoint_cmp_zero hsp) ((gtreeLookup_eq_none_iff _ _).mp hg p hp)
  | some kv => simp only [hg]

theorem C2_reachable_nonoverlap_witness :
    Reachable exS2 ∧ domainsNonOverlapping exS2 ∧
      virtio_iommu_map exS2 1 2048 6143 131072 3 = (exS2, [], S_INVAL) := by
  have h1 : Step exS0 exS1 :=
    Step.command exS0 exAttachElem exS1 [] S_OK (by decide)
  have h2 : Step exS1 exS2 :=
    Step.command exS1 exMapElem exS2 [] S_OK (by decide)
  have hr : Reachable exS2 :=
    Reachable.step (Reachable.step (Reachable.init false [] 4096) h1) h2
  refine ⟨hr, (C2_reachable_nonoverlap exS2 hr).1, ?_⟩
  exact (C2_reachable_nonoverlap exS2 hr).2 1 exD2 2048 6143 131072 3 (by decide)
    ⟨(⟨0, 4095⟩, ⟨65536, 3⟩), by decide, 2048, by decide⟩

/-! ### Claim C3 -/

/-- C3: UNMAP on a known domain repeatedly finds a key overlapping
`[vstart, vend]`.  The status is `S_OK` or `S_RANGE`; it is `S_RANGE`
exactly when some overlapping key is not fully covered.  Every removed key
was a fully covered overlapping key and gets an UNMAP fan-out for its own
extent, in removal order; keys that do not overlap are kept; on `S_OK`
exactly the overlapping keys are removed; on a well-formed table a removed
key is really gone, so a `S_RANGE` stop keeps the removals already
performed (non-atomic failure). -/
theorem C3_unmap_spec (s : VirtIOIOMMU) (did vs ve : Nat) (d : viommu_domain)
    (hd : tblLookup did s.domains = some d) :
    ((virtio_iommu_unmap s did vs ve).2.2 = S_OK ∨
      (virtio_iommu_unmap s did vs ve).2.2 = S_RANGE) ∧
    ((virtio_iommu_unmap s did vs ve).2.2 = S_RANGE ↔
      ∃ p ∈ d.mappings, interval_cmp ⟨vs, ve⟩ p.1 = 0 ∧
        ¬(vs ≤ p.1.low ∧ p.1.high ≤ ve)) ∧
    (∀ k ∈ (unmapLoop ⟨vs, ve⟩ d.mappings).2.1,
      (∃ v, (k, v) ∈ d.mappings) ∧ interval_cmp ⟨vs, ve⟩ k = 0 ∧
        vs ≤ k.low ∧ k.high ≤ ve) ∧
    (virtio_iommu_unmap s did vs ve).2.1 =
      (unmapLoop ⟨vs, ve⟩ d.mappings).2.1.flatMap
        (fun k => domainUnmapEvents s.notifiers_list d.endpoint_list k) ∧
    tblLookup did (virtio_iommu_unmap s did vs ve).1.domains =
      some { d with mappings := (unmapLoop ⟨vs, ve⟩ d.mappings).1 } ∧
    (∀ p ∈ d.mappings, interval_cmp ⟨vs, ve⟩ p.1 ≠ 0 →
      p ∈ (unmapLoop ⟨vs, ve⟩ d.mappings).1) ∧
    ((virtio_iommu_unmap s did vs ve).2.2 = S_OK →
      (unmapLoop ⟨vs, ve⟩ d.mappings).1 =
        d.mappings.filter (fun p => !(interval_cmp ⟨vs, ve⟩ p.1 == 0)) ∧
      (unmapLoop ⟨vs, ve⟩ d.mappings).2.1 =
        (d.mappings.filter (fun p => interval_cmp ⟨vs, ve⟩ p.1 == 0)).map Prod.fst) ∧
    (mappingsWF d.mappings → ∀ k ∈ (unmapLoop ⟨vs, ve⟩ d.mappings).2.1,
      ∀ v, (k, v) ∉ (unmapLoop ⟨vs, ve⟩ d.mappings).1) := by
  have hr : virtio_iommu_unmap s did vs ve =
      ({ s with domains := (tblUpdate did
          (fun d0 => { d0 with mappings := (unmapLoop ⟨vs, ve⟩ d.mappings).1 })
          s.domains) },
       (unmapLoop ⟨vs, ve⟩ d.mappings).2.1.flatMap
         (fun k => domainUnmapEvents s.notifiers_list d.endpoint_list k),
       (unmapLoop ⟨vs, ve⟩ d.mappings).2.2) := by
    unfold virtio_iommu_unmap
    rw [hd]
  rw [hr]
  dsimp only
  refine ⟨unmapLoop_status _ _, unmapLoop_range_iff _ _, unmapLoop_removed_spec _ _,
    rfl, ?_, unmapLoop_keep _ _, ?_, unmapLoop_removed_gone _ _⟩
  · exact tblLookup_update_self hd _
  · intro hok
    exact ⟨unmapLoop_ok_filter _ _ hok, unmapLoop_ok_removed _ _ hok⟩

theorem C3_unmap_spec_witness :
    tblLookup 1 exS2.domains = some exD2 ∧
    ((virtio_iommu_unmap exS2 1 1024 2303).2.2 = S_RANGE ↔
      ∃ p ∈ exD2.mappings, interval_cmp ⟨1024, 2303⟩ p.1 = 0 ∧
        ¬(1024 ≤ p.1.low ∧ p.1.high ≤ 2303)) := by
  refine ⟨by decide, ?_⟩
  exact (C3_unmap_spec exS2 1 1024 2303 exD2 (by decide)).2.1

/-! ### Claim C4 -/

/-- C4: MAP returns `S_NOENT` when the domain id is unknown and changes
nothing; `S_INVAL` when the interval overlaps an existing key of the
domain, changing nothing; otherwise it inserts the pair, returns `S_OK`,
and emits a MAP notification for `[vstart, vend]` to each notifier
subscribed to an attached endpoint of the domain. -/
theorem C4_map_spec (s : VirtIOIOMMU) (did vs ve ph fl : Nat) :
    (tblLookup did s.domains = none →
      virtio_iommu_map s did vs ve ph fl = (s, [], S_NOENT)) ∧
    (∀ d, tblLookup did s.domains = some d →
      ((∃ p ∈ d.mappings, interval_cmp ⟨vs, ve⟩ p.1 = 0) →
        virtio_iommu_map s did vs ve ph fl = (s, [], S_INVAL)) ∧
      ((∀ p ∈ d.mappings, interval_cmp ⟨vs, ve⟩ p.1 ≠ 0) →
        (virtio_iommu_map s did vs ve ph fl).2.2 = S_OK ∧
        tblLookup did (virtio_iommu_map s did vs ve ph fl).1.domains =
          some { d with mappings := gtreeInsert ⟨vs, ve⟩ ⟨ph, fl⟩ d.mappings } ∧
        (virtio_iommu_map s did vs ve ph fl).1.endpoints = s.endpoints ∧
        (∀ sid ∈ s.notifiers_list, sid ∈ d.endpoint_list →
          IOMMUEvent.map sid vs ph (wrap64 (sub64 ve vs + 1)) IOMMU_RW ∈
            (virtio_iommu_map s did vs ve ph fl).2.1))) := by
  constructor
  · intro hd
    unfold virtio_iommu_map
    rw [hd]
  · intro d hd
    constructor
    · rintro ⟨p, hp, hcmp⟩
      unfold virtio_iommu_map
      dsimp only
      rw [hd]
      cases hg : gtreeLookup ⟨vs, ve⟩ d.mappings with
      | none => exact absurd hcmp ((gtreeLookup_eq_none_iff _ _).mp hg p hp)
      | some kv => simp only [hg]
    · intro hno
      have hg : gtreeLookup ⟨vs, ve⟩ d.mappings = none :=
        (gtreeLookup_eq_none_iff _ _).mpr hno
      have hr : virtio_iommu_map s did vs ve ph fl =
          ({ s with domains := (tblUpdate did
              (fun d0 => { d0 with mappings := gtreeInsert ⟨vs, ve⟩ ⟨ph, fl⟩ d0.mappings })
              s.domains) },
           domainMapEvents s.notifiers_list d.endpoint_list vs ph
             (wrap64 (sub64 ve vs + 1)),
           S_OK) := by
        unfold virtio_iommu_map
        dsimp only
        rw [hd]
        simp only [hg]
      rw [hr]
      refine ⟨rfl, tblLookup_update_self hd _, rfl, ?_⟩
      intro sid hsid hep
      dsimp only
      unfold domainMapEvents
      rw [List.mem_flatMap]
      refine ⟨sid, hsid, ?_⟩
      rw [List.mem_flatMap]
      exact ⟨sid, hep, by simp [virtio_iommu_notify_map]⟩

theorem C4_map_spec_witness :
    tblLookup 1 exS1.domains = some (⟨[], [7], 2⟩ : viommu_domain) ∧
    (virtio_iommu_map exS1 1 0 4095 65536 3).2.2 = S_OK ∧
    tblLookup 3 exS1.domains = none ∧
    virtio_iommu_map exS1 3 0 4095 65536 3 = (exS1, [], S_NOENT) := by
  refine ⟨by decide, ?_, by decide, ?_⟩
  · exact (((C4_map_spec exS1 1 0 4095 65536 3).2 ⟨[], [7], 2⟩ (by decide)).2
      (by decide)).1
  · exact (C4_map_spec exS1 3 0 4095 65536 3).1 (by decide)

/-! ### Claim C6 -/

/-- C6: DETACH returns `S_NOENT` when the endpoint id is unknown and
`S_INVAL` when the endpoint has no domain, changing nothing in both cases;
otherwise it emits an UNMAP notification for every current mapping of the
domain to each notifier subscribed to the endpoint id, removes the endpoint
from the domain's endpoint set, clears the endpoint's domain, releases one
mapping-table reference, and returns `S_OK`. -/
theorem C6_detach_spec (s : VirtIOIOMMU) (did eid : Nat) :
    (tblLookup eid s.endpoints = none →
      virtio_iommu_detach s did eid = (s, [], S_NOENT)) ∧
    (∀ e, tblLookup eid s.endpoints = some e → e.domain = none →
      virtio_iommu_detach s did eid = (s, [], S_INVAL)) ∧
    (∀ e d0 dom, tblLookup eid s.endpoints = some e → e.domain = some d0 →
      tblLookup d0 s.domains = some dom →
      (virtio_iommu_detach s did eid).2.2 = S_OK ∧
      (virtio_iommu_detach s did eid).2.1 =
        epUnmapEvents s.notifiers_list eid dom.mappings ∧
      (∀ sid ∈ s.notifiers_list, sid = eid → ∀ p ∈ dom.mappings,
        virtio_iommu_notify_unmap sid p.1.low (intervalSize p.1) ∈
          (virtio_iommu_detach s did eid).2.1) ∧
      tblLookup eid (virtio_iommu_detach s did eid).1.endpoints = some ⟨none⟩ ∧
      tblLookup d0 (virtio_iommu_detach s did eid).1.domains =
        some { dom with endpoint_list := dom.endpoint_list.erase eid,
                        mappings_refs := dom.mappings_refs - 1 }) := by
  refine ⟨?_, ?_, ?_⟩
  · intro he
    unfold virtio_iommu_detach
    rw [he]
  · intro e he hd0
    unfold virtio_iommu_detach
    rw [he]
    simp only [hd0]
  · intro e d0 dom he hd0 hdom
    have hr : virtio_iommu_detach s did eid =
        ({ s with
            domains := (tblUpdate d0
              (fun d => { d with endpoint_list := d.endpoint_list.erase eid,
                                 mappings_refs := d.mappings_refs - 1 }) s.domains),
            endpoints := (tblUpdate eid (fun _ => ⟨none⟩) s.endpoints) },
         epUnmapEvents s.notifiers_list eid dom.mappings,
         S_OK) := by
      unfold virtio_iommu_detach virtio_iommu_detach_endpoint_from_domain
      rw [he]
      simp only [Option.some_bind, hd0, hdom]
    rw [hr]
    refine ⟨rfl, rfl, ?_, ?_, ?_⟩
    · intro sid hsid hse p hp
      dsimp only
      unfold epUnmapEvents
      rw [List.mem_flatMap]
      refine ⟨sid, hsid, ?_⟩
      rw [if_pos hse.symm]
      exact List.mem_map_of_mem _ hp
    · exact tblLookup_update_self he _
    · exact tblLookup_update_self hdom _

theorem C6_detach_spec_witness :
    tblLookup 7 exS2.endpoints = some ⟨some 1⟩ ∧
    tblLookup 1 exS2.domains = some exD2 ∧
    (virtio_iommu_detach exS2 1 7).2.2 = S_OK ∧
    tblLookup 7 (virtio_iommu_detach exS2 1 7).1.endpoints = some ⟨none⟩ ∧
    tblLookup 9 exS2.endpoints = none ∧
    virtio_iommu_detach exS2 1 9 = (exS2, [], S_NOENT) := by
  have h := (C6_detach_spec exS2 1 7).2.2 ⟨some 1⟩ 1 exD2 (by decide) (by decide) (by decide)
  refine ⟨by decide, by decide, h.1, h.2.2.2.1, by decide, ?_⟩
  exact (C6_detach_spec exS2 1 9).1 (by decide)

/-! ### Claim C9 support -/

theorem endpoints_get_domain (s : VirtIOIOMMU) (d : Nat) :
    (virtio_iommu_get_domain s d).endpoints = s.endpoints := by
  unfold virtio_iommu_get_domain
  cases tblLookup d s.domains <;> rfl

theorem notifiers_get_domain (s : VirtIOIOMMU) (d : Nat) :
    (virtio_iommu_get_domain s d).notifiers_list = s.notifiers_list := by
  unfold virtio_iommu_get_domain
  cases tblLookup d s.domains <;> rfl

theorem notifiers_get_endpoint (s : VirtIOIOMMU) (e : Nat) :
    (virtio_iommu_get_endpoint s e).notifiers_list = s.notifiers_list := by
  unfold virtio_iommu_get_endpoint
  cases tblLookup e s.endpoints <;> rfl

theorem notifiers_detach_ep (s : VirtIOIOMMU) (e : Nat) :
    (virtio_iommu_detach_endpoint_from_domain s e).1.notifiers_list = s.notifiers_list := by
  unfold virtio_iommu_detach_endpoint_from_domain
  split
  · rfl
  · split
    · rfl
    · rfl

theorem get_endpoint_lookup (s : VirtIOIOMMU) (e : Nat) :
    ∃ ep, tblLookup e (virtio_iommu_get_endpoint s e).endpoints = some ep := by
  unfold virtio_iommu_get_endpoint
  cases he : tblLookup e s.endpoints with
  | none => exact ⟨⟨none⟩, tblLookup_insert_self e ⟨none⟩ s.endpoints⟩
  | some ep => exact ⟨ep, he⟩

theorem get_domain_lookup (s : VirtIOIOMMU) (d : Nat) :
    ∃ dm, tblLookup d (virtio_iommu_get_domain s d).domains = some dm := by
  unfold virtio_iommu_get_domain
  cases hd : tblLookup d s.domains with
  | none => exact ⟨⟨[], [], 1⟩, tblLookup_insert_self d ⟨[], [], 1⟩ s.domains⟩
  | some dm => exact ⟨dm, hd⟩

theorem detach_ep_lookup (s : VirtIOIOMMU) (e : Nat)
    (h : ∃ ep, tblLookup e s.endpoints = some ep) :
    ∃ ep, tblLookup e (virtio_iommu_detach_endpoint_from_domain s e).1.endpoints =
      some ep := by
  obtain ⟨ep, hep⟩ := h
  unfold virtio_iommu_detach_endpoint_from_domain
  split
  · exact ⟨ep, hep⟩
  · split
    · exact ⟨ep, hep⟩
    · exact ⟨⟨none⟩, tblLookup_update_self hep _⟩

theorem attachDet_lookup (s : VirtIOIOMMU) (eid : Nat) :
    ∃ ep, tblLookup eid (attachDet s eid).1.endpoints = some ep := by
  unfold attachDet
  split
  · exact detach_ep_lookup _ _ (get_endpoint_lookup s eid)
  · exact get_endpoint_lookup s eid

theorem attachDet_notifiers (s : VirtIOIOMMU) (eid : Nat) :
    (attachDet s eid).1.notifiers_list = s.notifiers_list := by
  unfold attachDet
  split
  · rw [notifiers_detach_ep, notifiers_get_endpoint]
  · exact notifiers_get_endpoint s eid

/-- When the endpoint is absent or unattached the detach-first stage emits
nothing and only (possibly) creates the endpoint. -/
theorem attachDet_none (s : VirtIOIOMMU) (eid : Nat)
    (h : (tblLookup eid s.endpoints).bind (fun e => e.domain) = none) :
    (attachDet s eid).2 = [] := by
  unfold attachDet
  cases he : tblLookup eid s.endpoints with
  | none =>
    rw [if_neg]
    unfold virtio_iommu_get_endpoint
    rw [he]
    dsimp only
    rw [tblLookup_insert_self]
    simp
  | some e =>
    rw [he] at h
    simp at h
    rw [if_neg]
    unfold virtio_iommu_get_endpoint
    rw [he]
    dsimp only
    rw [he]
    simp [h]

/-- When the endpoint is attached to a live domain, the detach-first stage
emits the UNMAP replay of that domain's mappings. -/
theorem attachDet_some (s : VirtIOIOMMU) (eid od : Nat) (dom : viommu_domain)
    (h : (tblLookup eid s.endpoints).bind (fun e => e.domain) = some od)
    (hdom : tblLookup od s.domains = some dom) :
    (attachDet s eid).2 = epUnmapEvents s.notifiers_list eid dom.mappings := by
  cases he : tblLookup eid s.endpoints with
  | none =>
    rw [he] at h
    simp at h
  | some e =>
    rw [he] at h
    simp at h
    have hs1 : virtio_iommu_get_endpoint s eid = s := by
      unfold virtio_iommu_get_endpoint
      rw [he]
    unfold attachDet
    rw [hs1, if_pos (by rw [he]; simp [h])]
    unfold virtio_iommu_detach_endpoint_from_domain
    rw [he]
    simp only [Option.some_bind, h, hdom]

/-! ### Claim C9 -/

/-- C9: ATTACH always returns `S_OK`, whatever the state and ids: a missing
endpoint or domain is created lazily; an endpoint already attached to a
live domain is silently detached first, emitting the UNMAP replay of the
old domain, before being linked to the target domain, whose mappings are
then replayed as MAP notifications; ATTACH has no error status of its
own. -/
theorem C9_attach_spec (s : VirtIOIOMMU) (did eid : Nat) :
    (virtio_iommu_attach s did eid).2.2 = S_OK ∧
    tblLookup eid (virtio_iommu_attach s did eid).1.endpoints = some ⟨some did⟩ ∧
    (∃ dnew, tblLookup did (virtio_iommu_attach s did eid).1.domains = some dnew ∧
      eid ∈ dnew.endpoint_list ∧
      (virtio_iommu_attach s did eid).2.1 =
        (attachDet s eid).2 ++ epMapEvents s.notifiers_list eid dnew.mappings) ∧
    ((tblLookup eid s.endpoints).bind (fun e => e.domain) = none →
      (attachDet s eid).2 = []) ∧
    (∀ od dom, (tblLookup eid s.endpoints).bind (fun e => e.domain) = some od →
      tblLookup od s.domains = some dom →
      (attachDet s eid).2 = epUnmapEvents s.notifiers_list eid dom.mappings) := by
  obtain ⟨dm, hdm⟩ := get_domain_lookup (attachDet s eid).1 did
  obtain ⟨e2, he2⟩ := attachDet_lookup s eid
  have he3 : tblLookup eid (attachS3 s did eid).endpoints = some e2 := by
    unfold attachS3
    rw [endpoints_get_domain]
    exact he2
  have hs4d : tblLookup did (attachS4 s did eid).domains =
      some { dm with endpoint_list := eid :: dm.endpoint_list,
                     mappings_refs := dm.mappings_refs + 1 } := by
    unfold attachS4
    dsimp only
    exact tblLookup_update_self hdm _
  have hs4e : tblLookup eid (attachS4 s did eid).endpoints = some ⟨some did⟩ := by
    unfold attachS4
    dsimp only
    exact tblLookup_update_self he3 _
  have hs4n : (attachS4 s did eid).notifiers_list = s.notifiers_list := by
    unfold attachS4 attachS3
    dsimp only
    rw [notifiers_get_domain]
    exact attachDet_notifiers s eid
  have hres : virtio_iommu_attach s did eid =
      (attachS4 s did eid,
       (attachDet s eid).2 ++
         (match tblLookup did (attachS4 s did eid).domains with
          | some d => epMapEvents (attachS4 s did eid).notifiers_list eid d.mappings
          | none => []),
       S_OK) := rfl
  refine ⟨?_, ?_, ?_, attachDet_none s eid, attachDet_some s eid⟩
  · rw [hres]
  · rw [hres]
    exact hs4e
  · refine ⟨{ dm with endpoint_list := eid :: dm.endpoint_list, mappings_refs := dm.mappings_refs + 1 }, ?_, ?_, ?_⟩
    · rw [hres]
      exact hs4d
    · exact List.mem_cons_self eid dm.endpoint_list
    · rw [hres]
      dsimp only
      rw [hs4d, hs4n]

theorem C9_attach_spec_witness :
    (virtio_iommu_attach exS2 5 7).2.2 = S_OK ∧
    tblLookup 7 (virtio_iommu_attach exS2 5 7).1.endpoints = some ⟨some 5⟩ ∧
    (tblLookup 7 exS2.endpoints).bind (fun e => e.domain) = some 1 ∧
    tblLookup 1 exS2.domains = some exD2 ∧
    (attachDet exS2 7).2 = epUnmapEvents exS2.notifiers_list 7 exD2.mappings := by
  have h := C9_attach_spec exS2 5 7
  exact ⟨h.1, h.2.1, by decide, by decide,
    h.2.2.2.2 1 exD2 (by decide) (by decide)⟩

/-! ### Branch equations of the translator -/

theorem translate_ep_none_bypass {s : VirtIOIOMMU} {sid addr flag : Nat}
    (hep : tblLookup sid s.endpoints = none) (hb : s.bypass_allowed = true) :
    virtio_iommu_translate s sid addr flag =
      ({ translateEntry0 s addr with perm := flag }, []) := by
  unfold virtio_iommu_translate
  simp only [hep, hb, if_true]

theorem translate_ep_none_fault {s : VirtIOIOMMU} {sid addr flag : Nat}
    (hep : tblLookup sid s.endpoints = none) (hb : s.bypass_allowed = false) :
    virtio_iommu_translate s sid addr flag =
      (translateEntry0 s addr, [IOMMUEvent.fault FAULT_R_UNKNOWN 0 sid 0]) := by
  unfold virtio_iommu_translate
  simp only [hep, hb]
  rfl

theorem translate_resv_msi {s : VirtIOIOMMU} {sid addr flag : Nat}
    {ep : viommu_endpoint} {r0 : ReservedRegion}
    (hep : tblLookup sid s.endpoints = some ep)
    (hr : s.reserved_regions.find?
      (fun r => decide (r.low ≤ addr) && decide (addr ≤ r.high)) = some r0)
    (hmsi : r0.rtype = RESV_MEM_T_MSI) :
    virtio_iommu_translate s sid addr flag =
      ({ translateEntry0 s addr with perm := flag }, []) := by
  unfold virtio_iommu_translate
  simp only [hep, hr]
  rw [if_pos hmsi]

theorem translate_resv_reserved {s : VirtIOIOMMU} {sid addr flag : Nat}
    {ep : viommu_endpoint} {r0 : ReservedRegion}
    (hep : tblLookup sid s.endpoints = some ep)
    (hr : s.reserved_regions.find?
      (fun r => decide (r.low ≤ addr) && decide (addr ≤ r.high)) = some r0)
    (hne : r0.rtype ≠ RESV_MEM_T_MSI) :
    virtio_iommu_translate s sid addr flag =
      (translateEntry0 s addr, [IOMMUEvent.fault FAULT_R_MAPPING 0 sid addr]) := by
  unfold virtio_iommu_translate
  simp only [hep, hr, if_neg hne]

theorem translate_nodom_bypass {s : VirtIOIOMMU} {sid addr flag : Nat}
    {ep : viommu_endpoint}
    (hep : tblLookup sid s.endpoints = some ep)
    (hr : s.reserved_regions.find?
      (fun r => decide (r.low ≤ addr) && decide (addr ≤ r.high)) = none)
    (hdo : ep.domain = none) (hb : s.bypass_allowed = true) :
    virtio_iommu_translate s sid addr flag =
      ({ translateEntry0 s addr with perm := flag }, []) := by
  unfold virtio_iommu_translate
  simp only [hep, hr, hdo, hb, if_true]

theorem translate_nodom_fault {s : VirtIOIOMMU} {sid addr flag : Nat}
    {ep : viommu_endpoint}
    (hep : tblLookup sid s.endpoints = some ep)
    (hr : s.reserved_regions.find?
      (fun r => decide (r.low ≤ addr) && decide (addr ≤ r.high)) = none)
    (hdo : ep.domain = none) (hb : s.bypass_allowed = false) :
    virtio_iommu_translate s sid addr flag =
      (translateEntry0 s addr, [IOMMUEvent.fault FAULT_R_DOMAIN 0 sid 0]) := by
  unfold virtio_iommu_translate
  simp only [hep, hr, hdo, hb]
  rfl

theorem translate_dangling {s : VirtIOIOMMU} {sid addr flag : Nat}
    {ep : viommu_endpoint} {did : Nat}
    (hep : tblLookup sid s.endpoints = some ep)
    (hr : s.reserved_regions.find?
      (fun r => decide (r.low ≤ addr) && decide (addr ≤ r.high)) = none)
    (hdo : ep.domain = some did) (hdom : tblLookup did s.domains = none) :
    virtio_iommu_translate s sid addr flag = (translateEntry0 s addr, []) := by
  unfold virtio_iommu_translate
  simp only [hep, hr, hdo, hdom]

theorem translate_nomap {s : VirtIOIOMMU} {sid addr flag : Nat}
    {ep : viommu_endpoint} {did : Nat} {d : viommu_domain}
    (hep : tblLookup sid s.endpoints = some ep)
    (hr : s.reserved_regions.find?
      (fun r => decide (r.low ≤ addr) && decide (addr ≤ r.high)) = none)
    (hdo : ep.domain = some did) (hdom : tblLookup did s.domains = some d)
    (hkv : gtreeLookup ⟨addr, wrap64 (addr + 1)⟩ d.mappings = none) :
    virtio_iommu_translate s sid addr flag =
      (translateEntry0 s addr, [IOMMUEvent.fault FAULT_R_MAPPING 0 sid addr]) := by
  unfold virtio_iommu_translate
  simp only [hep, hr, hdo, hdom, hkv]

theorem translate_mapped_ok {s : VirtIOIOMMU} {sid addr flag : Nat}
    {ep : viommu_endpoint} {did : Nat} {d : viommu_domain}
    {kv : viommu_interval × viommu_mapping}
    (hep : tblLookup sid s.endpoints = some ep)
    (hr : s.reserved_regions.find?
      (fun r => decide (r.low ≤ addr) && decide (addr ≤ r.high)) = none)
    (hdo : ep.domain = some did) (hdom : tblLookup did s.domains = some d)
    (hkv : gtreeLookup ⟨addr, wrap64 (addr + 1)⟩ d.mappings = some kv)
    (hrf : (((flag &&& IOMMU_RO) != 0) && ((kv.2.flags &&& MAP_F_READ) == 0)) = false)
    (hwf : (((flag &&& IOMMU_WO) != 0) && ((kv.2.flags &&& MAP_F_WRITE) == 0)) = false) :
    virtio_iommu_translate s sid addr flag =
      ({ translateEntry0 s addr with
          translated_addr := wrap64 (sub64 addr kv.1.low + kv.2.phys_addr),
          perm := flag }, []) := by
  unfold virtio_iommu_translate
  simp only [hep, hr, hdo, hdom, hkv, hrf, hwf]
  rfl

theorem translate_mapped_fault {s : VirtIOIOMMU} {sid addr flag : Nat}
    {ep : viommu_endpoint} {did : Nat} {d : viommu_domain}
    {kv : viommu_interval × viommu_mapping}
    (hep : tblLookup sid s.endpoints = some ep)
    (hr : s.reserved_regions.find?
      (fun r => decide (r.low ≤ addr) && decide (addr ≤ r.high)) = none)
    (hdo : ep.domain = some did) (hdom : tblLookup did s.domains = some d)
    (hkv : gtreeLookup ⟨addr, wrap64 (addr + 1)⟩ d.mappings = some kv)
    (hor : (((flag &&& IOMMU_RO) != 0) && ((kv.2.flags &&& MAP_F_READ) == 0)) = true ∨
      (((flag &&& IOMMU_WO) != 0) && ((kv.2.flags &&& MAP_F_WRITE) == 0)) = true) :
    (virtio_iommu_translate s sid addr flag).1 = translateEntry0 s addr := by
  unfold virtio_iommu_translate
  simp only [hep, hr, hdo, hdom, hkv]
  rcases hor with h1 | h1
  · rw [h1]
    cases hwf2 : (((flag &&& IOMMU_WO) != 0) && ((kv.2.flags &&& MAP_F_WRITE) == 0)) <;>
      · rw [if_pos (by decide)]
  · rw [h1]
    cases hrf : (((flag &&& IOMMU_RO) != 0) && ((kv.2.flags &&& MAP_F_READ) == 0)) <;>
      · rw [if_pos (by decide)]

/-! ### Claim C1 -/

/-- C1 as amended: whenever the translator's entry has `perm ≠ 0`, the
permission equals the requested access flags, and the translated address is
either the identity (bypass and MSI-region paths) or
`(iova − interval.low + mapping.phys_addr) mod 2^64` for an interval of the
endpoint's domain's mapping table that the degenerate query
`[iova, iova + 1]` compares equal to (overlaps) — not necessarily one
containing `iova`. -/
theorem C1_translate_amended (s : VirtIOIOMMU) (sid addr flag : Nat)
    (hperm : (virtio_iommu_translate s sid addr flag).1.perm ≠ 0) :
    (virtio_iommu_translate s sid addr flag).1.perm = flag ∧
    ((virtio_iommu_translate s sid addr flag).1.translated_addr = addr ∨
      ∃ p ∈ endpointDomainMappings s sid,
        interval_cmp ⟨addr, wrap64 (addr + 1)⟩ p.1 = 0 ∧
        (virtio_iommu_translate s sid addr flag).1.translated_addr =
          wrap64 (sub64 addr p.1.low + p.2.phys_addr)) := by
  cases hep : tblLookup sid s.endpoints with
  | none =>
    cases hb : s.bypass_allowed
    · rw [translate_ep_none_fault hep hb] at hperm
      exact absurd rfl hperm
    · rw [translate_ep_none_bypass hep hb]
      exact ⟨rfl, Or.inl rfl⟩
  | some ep =>
    cases hr : s.reserved_regions.find?
        (fun r => decide (r.low ≤ addr) && decide (addr ≤ r.high)) with
    | some r0 =>
      by_cases hmsi : r0.rtype = RESV_MEM_T_MSI
      · rw [translate_resv_msi hep hr hmsi]
        exact ⟨rfl, Or.inl rfl⟩
      · rw [translate_resv_reserved hep hr hmsi] at hperm
        exact absurd rfl hperm
    | none =>
      cases hdo : ep.domain with
      | none =>
        cases hb : s.bypass_allowed
        · rw [translate_nodom_fault hep hr hdo hb] at hperm
          exact absurd rfl hperm
        · rw [translate_nodom_bypass hep hr hdo hb]
          exact ⟨rfl, Or.inl rfl⟩
      | some did =>
        cases hdom : tblLookup did s.domains with
        | none =>
          rw [translate_dangling hep hr hdo hdom] at hperm
          exact absurd rfl hperm
        | some d =>
          cases hkv : gtreeLookup ⟨addr, wrap64 (addr + 1)⟩ d.mappings with
          | none =>
            rw [translate_nomap hep hr hdo hdom hkv] at hperm
            exact absurd rfl hperm
          | some kv =>
            cases hrf : (((flag &&& IOMMU_RO) != 0) &&
                ((kv.2.flags &&& MAP_F_READ) == 0)) with
            | true =>
              rw [translate_mapped_fault hep hr hdo hdom hkv (Or.inl hrf)] at hperm
              exact absurd rfl hperm
            | false =>
              cases hwf2 : (((flag &&& IOMMU_WO) != 0) &&
                  ((kv.2.flags &&& MAP_F_WRITE) == 0)) with
              | true =>
                rw [translate_mapped_fault hep hr hdo hdom hkv (Or.inr hwf2)] at hperm
                exact absurd rfl hperm
              | false =>
                rw [translate_mapped_ok hep hr hdo hdom hkv hrf hwf2]
                refine ⟨rfl, Or.inr ⟨kv, ?_, ?_, rfl⟩⟩
                · unfold endpointDomainMappings
                  rw [hep]
                  simp only [Option.some_bind, hdo, hdom]
                  exact List.mem_of_find?_eq_some hkv
                · have := List.find?_some hkv
                  simpa using this

/-- C1 as stated fails: with `[6, 10] → 100` mapped, translating iova 5
succeeds with `perm ≠ 0`, yet no interval of the domain contains 5, so no
containing interval satisfies the claimed address equation (the found
interval `[6, 10]` merely overlaps the degenerate query `[5, 6]`; the
translated address is `5 − 6 + 100` in `uint64_t`, i.e. 99). -/
theorem C1_translate_counterexample :
    (virtio_iommu_translate exSquirk 7 5 1).1.perm ≠ 0 ∧
    (virtio_iommu_translate exSquirk 7 5 1).1.translated_addr = 99 ∧
    ¬∃ p ∈ endpointDomainMappings exSquirk 7,
      p.1.low ≤ 5 ∧ 5 ≤ p.1.high ∧
      (virtio_iommu_translate exSquirk 7 5 1).1.translated_addr =
        wrap64 (sub64 5 p.1.low + p.2.phys_addr) := by
  exact ⟨by decide, by decide, by decide⟩

theorem C1_translate_amended_witness :
    (virtio_iommu_translate exS2 7 2748 1).1.perm ≠ 0 ∧
    (virtio_iommu_translate exS2 7 2748 1).1.perm = 1 := by
  refine ⟨by decide, ?_⟩
  exact (C1_translate_amended exS2 7 2748 1 (by decide)).1

/-! ### Claim C5 -/

/-- C5 as amended: over a pairwise non-overlapping table, looking up the
degenerate interval `[iova, iova + 1]` with the overlap comparator returns
a mapping if and only if some stored interval overlaps that query, i.e.
`interval.low ≤ iova + 1` (computed in `uint64_t`) and
`iova ≤ interval.high` — overlap, not containment of `iova`. -/
theorem C5_lookup_amended (ms : List (viommu_interval × viommu_mapping))
    (hp : List.Pairwise (fun a b => interval_cmp a.1 b.1 ≠ 0) ms) (iova : Nat) :
    (gtreeLookup ⟨iova, wrap64 (iova + 1)⟩ ms).isSome ↔
      ∃ p ∈ ms, p.1.low ≤ wrap64 (iova + 1) ∧ iova ≤ p.1.high := by
  unfold gtreeLookup
  rw [List.find?_isSome]
  constructor
  · rintro ⟨p, hm, hcmp⟩
    simp at hcmp
    rw [interval_cmp_eq_zero_iff] at hcmp
    exact ⟨p, hm, hcmp⟩
  · rintro ⟨p, hm, h1, h2⟩
    refine ⟨p, hm, ?_⟩
    simp
    rw [interval_cmp_eq_zero_iff]
    exact ⟨h1, h2⟩

/-- C5 as stated fails: the degenerate query `[5, 6]` finds the stored
interval `[6, 10]`, which does not contain iova 5. -/
theorem C5_lookup_counterexample :
    List.Pairwise (fun a b => interval_cmp a.1 b.1 ≠ 0) exMs5 ∧
    (gtreeLookup ⟨5, wrap64 (5 + 1)⟩ exMs5).isSome = true ∧
    ¬∃ p ∈ exMs5, p.1.low ≤ 5 ∧ 5 ≤ p.1.high := by
  exact ⟨by decide, by decide, by decide⟩

theorem C5_lookup_amended_witness :
    List.Pairwise (fun a b => interval_cmp a.1 b.1 ≠ 0) exMs5 ∧
    ((gtreeLookup ⟨8, wrap64 (8 + 1)⟩ exMs5).isSome ↔
      ∃ p ∈ exMs5, p.1.low ≤ wrap64 (8 + 1) ∧ 8 ≤ p.1.high) :=
  ⟨by decide, C5_lookup_amended exMs5 (by decide) 8⟩

/-! ### Claim C7 -/

/-- C7 as amended: a request element whose out buffer is shorter than the
fixed request size of its (known) command type, while still large enough
for the head, gets status `S_INVAL` — not `S_DEVERR` — in its tail, with no
state change and no notification; except that a PROBE element whose in
buffer cannot hold the full probe response (`VIOMMU_PROBE_SIZE` bytes plus
the tail) makes the device fail its write-back assertion and abort, so no
tail is written at all. -/
theorem C7_short_payload (s : VirtIOIOMMU) (e : VirtQueueElem)
    (h1 : REQ_HEAD_SIZE ≤ e.out_len) (h2 : REQ_TAIL_SIZE ≤ e.in_len)
    (h3 : 1 ≤ e.head_type) (h4 : e.head_type ≤ 5)
    (h5 : e.out_len < req_payload_size e.head_type) :
    virtio_iommu_handle_command s e =
      (if e.head_type = T_PROBE ∧ e.in_len < VIOMMU_PROBE_SIZE + REQ_TAIL_SIZE
       then none
       else some (s, [], S_INVAL)) := by
  simp only [REQ_HEAD_SIZE] at h1
  simp only [REQ_TAIL_SIZE] at h2
  have ht : e.head_type = 1 ∨ e.head_type = 2 ∨ e.head_type = 3 ∨
      e.head_type = 4 ∨ e.head_type = 5 := by omega
  unfold virtio_iommu_handle_command
  rw [if_neg (by simp only [REQ_HEAD_SIZE, REQ_TAIL_SIZE]; omega)]
  rcases ht with ht | ht | ht | ht | ht
  · rw [ht] at h5
    simp only [ht, T_ATTACH, T_DETACH, T_MAP, T_UNMAP, T_PROBE, req_payload_size] at h5 ⊢
    simp [h5]
  · rw [ht] at h5
    simp only [ht, T_ATTACH, T_DETACH, T_MAP, T_UNMAP, T_PROBE, req_payload_size] at h5 ⊢
    simp [h5]
  · rw [ht] at h5
    simp only [ht, T_ATTACH, T_DETACH, T_MAP, T_UNMAP, T_PROBE, req_payload_size] at h5 ⊢
    simp [h5]
  · rw [ht] at h5
    simp only [ht, T_ATTACH, T_DETACH, T_MAP, T_UNMAP, T_PROBE, req_payload_size] at h5 ⊢
    simp [h5]
  · rw [ht] at h5
    simp only [ht, T_PROBE, req_payload_size] at h5 ⊢
    by_cases hin : e.in_len < VIOMMU_PROBE_SIZE + REQ_TAIL_SIZE
    · simp [hin]
    · simp [hin, h5]

/-- C7 as stated fails: a 10-byte ATTACH payload yields `S_INVAL`, not
`S_DEVERR`, and leaves the state unchanged. -/
theorem C7_short_payload_counterexample :
    virtio_iommu_handle_command exS0 exShortElem = some (exS0, [], S_INVAL) ∧
    S_INVAL ≠ S_DEVERR := by
  exact ⟨by decide, by decide⟩

/-! ### Claim C10 support -/

theorem mapEventsRW_nil : mapEventsRW [] := by
  intro sid i pa sz pm hm
  simp at hm

theorem mapEventsRW_append {l1 l2 : List IOMMUEvent} (h1 : mapEventsRW l1)
    (h2 : mapEventsRW l2) : mapEventsRW (l1 ++ l2) := by
  intro sid i pa sz pm hm
  rcases List.mem_append.mp hm with h | h
  · exact h1 sid i pa sz pm h
  · exact h2 sid i pa sz pm h

theorem mapEventsRW_epUnmap (ns : List Nat) (e : Nat)
    (ms : List (viommu_interval × viommu_mapping)) :
    mapEventsRW (epUnmapEvents ns e ms) := by
  intro sid i pa sz pm hm
  unfold epUnmapEvents at hm
  rw [List.mem_flatMap] at hm
  obtain ⟨x, hx, hmm⟩ := hm
  split at hmm
  · rw [List.mem_map] at hmm
    obtain ⟨p, hp, heq⟩ := hmm
    exact absurd heq (by simp [virtio_iommu_notify_unmap])
  · simp at hmm

theorem mapEventsRW_epMap (ns : List Nat) (e : Nat)
    (ms : List (viommu_interval × viommu_mapping)) :
    mapEventsRW (epMapEvents ns e ms) := by
  intro sid i pa sz pm hm
  unfold epMapEvents at hm
  rw [List.mem_flatMap] at hm
  obtain ⟨x, hx, hmm⟩ := hm
  split at hmm
  · rw [List.mem_map] at hmm
    obtain ⟨p, hp, heq⟩ := hmm
    unfold virtio_iommu_notify_map at heq
    injection heq with h1 h2 h3 h4 h5
    exact h5.symm
  · simp at hmm

theorem mapEventsRW_domainMap (ns eps : List Nat) (vs ph sz : Nat) :
    mapEventsRW (domainMapEvents ns eps vs ph sz) := by
  intro sid i pa szz pm hm
  unfold domainMapEvents at hm
  rw [List.mem_flatMap] at hm
  obtain ⟨x, hx, hmm⟩ := hm
  rw [List.mem_flatMap] at hmm
  obtain ⟨y, hy, hmmm⟩ := hmm
  split at hmmm
  · rw [List.mem_singleton] at hmmm
    unfold virtio_iommu_notify_map at hmmm
    injection hmmm.symm with h1 h2 h3 h4 h5
    exact h5.symm
  · simp at hmmm

theorem mapEventsRW_domainUnmap (ns eps : List Nat) (k : viommu_interval) :
    mapEventsRW (domainUnmapEvents ns eps k) := by
  intro sid i pa sz pm hm
  unfold domainUnmapEvents at hm
  rw [List.mem_flatMap] at hm
  obtain ⟨x, hx, hmm⟩ := hm
  rw [List.mem_flatMap] at hmm
  obtain ⟨y, hy, hmmm⟩ := hmm
  split at hmmm
  · rw [List.mem_singleton] at hmmm
    exact absurd hmmm.symm (by simp [virtio_iommu_notify_unmap])
  · simp at hmmm

theorem mapEventsRW_unmapFan (removed : List viommu_interval) (ns eps : List Nat) :
    mapEventsRW (removed.flatMap (fun k => domainUnmapEvents ns eps k)) := by
  intro sid i pa sz pm hm
  rw [List.mem_flatMap] at hm
  obtain ⟨k, hk, hmm⟩ := hm
  exact mapEventsRW_domainUnmap ns eps k sid i pa sz pm hmm

theorem mapEventsRW_detach_ep (s : VirtIOIOMMU) (e : Nat) :
    mapEventsRW (virtio_iommu_detach_endpoint_from_domain s e).2 := by
  unfold virtio_iommu_detach_endpoint_from_domain
  split
  · exact mapEventsRW_nil
  · split
    · exact mapEventsRW_nil
    · exact mapEventsRW_epUnmap _ _ _

theorem mapEventsRW_attach (s : VirtIOIOMMU) (did eid : Nat) :
    mapEventsRW (virtio_iommu_attach s did eid).2.1 := by
  have hres : virtio_iommu_attach s did eid =
      (attachS4 s did eid,
       (attachDet s eid).2 ++
         (match tblLookup did (attachS4 s did eid).domains with
          | some d => epMapEvents (attachS4 s did eid).notifiers_list eid d.mappings
          | none => []),
       S_OK) := rfl
  rw [hres]
  dsimp only
  apply mapEventsRW_append
  · unfold attachDet
    split
    · exact mapEventsRW_detach_ep _ _
    · exact mapEventsRW_nil
  · split
    · exact mapEventsRW_epMap _ _ _
    · exact mapEventsRW_nil

theorem mapEventsRW_detach (s : VirtIOIOMMU) (did eid : Nat) :
    mapEventsRW (virtio_iommu_detach s did eid).2.1 := by
  unfold virtio_iommu_detach
  split
  · exact mapEventsRW_nil
  · split
    · exact mapEventsRW_nil
    · exact mapEventsRW_detach_ep _ _

theorem mapEventsRW_map_handler (s : VirtIOIOMMU) (did vs ve ph fl : Nat) :
    mapEventsRW (virtio_iommu_map s did vs ve ph fl).2.1 := by
  unfold virtio_iommu_map
  dsimp only
  split
  · exact mapEventsRW_nil
  · split
    · exact mapEventsRW_nil
    · exact mapEventsRW_domainMap _ _ _ _ _

theorem mapEventsRW_unmap_handler (s : VirtIOIOMMU) (did vs ve : Nat) :
    mapEventsRW (virtio_iommu_unmap s did vs ve).2.1 := by
  unfold virtio_iommu_unmap
  dsimp only
  split
  · exact mapEventsRW_nil
  · exact mapEventsRW_unmapFan _ _ _

theorem mapRW_of_triple {s' : VirtIOIOMMU} {evs : List IOMMUEvent} {st : Nat}
    {r : VirtIOIOMMU × List IOMMUEvent × Nat} (hc : r = (s', evs, st))
    (h : mapEventsRW r.2.1) : mapEventsRW evs := by
  rw [hc] at h
  exact h

/-! ### Claim C10 -/

/-- C10: every MAP notification delivered by a command (MAP fan-out, ATTACH
replay) or by the subscriber-driven replay/remap path carries full
read-write permission `IOMMU_RW`, regardless of the READ/WRITE flags of the
mapping that triggered it; the mapping's flags are enforced only on the
translate path, where a requested access the mapping does not allow yields
a no-permission entry. -/
theorem C10_map_notifications_rw (s : VirtIOIOMMU) :
    (∀ e s' evs st, virtio_iommu_handle_command s e = some (s', evs, st) →
      mapEventsRW evs) ∧
    (∀ sid, mapEventsRW (virtio_iommu_replay s sid)) ∧
    (∀ sid addr flag ep did d kv,
      tblLookup sid s.endpoints = some ep →
      s.reserved_regions.find?
        (fun r => decide (r.low ≤ addr) && decide (addr ≤ r.high)) = none →
      ep.domain = some did →
      tblLookup did s.domains = some d →
      gtreeLookup ⟨addr, wrap64 (addr + 1)⟩ d.mappings = some kv →
      (((flag &&& IOMMU_RO) ≠ 0 ∧ (kv.2.flags &&& MAP_F_READ) = 0) ∨
        ((flag &&& IOMMU_WO) ≠ 0 ∧ (kv.2.flags &&& MAP_F_WRITE) = 0)) →
      (virtio_iommu_translate s sid addr flag).1.perm = IOMMU_NONE) := by
  refine ⟨?_, ?_, ?_⟩
  · intro e s' evs st hc
    unfold virtio_iommu_handle_command at hc
    split at hc
    · exact absurd hc (by simp)
    · split at hc
      · split at hc
        · exact absurd hc (by simp)
        · rw [Option.some_inj] at hc
          exact mapRW_of_triple hc mapEventsRW_nil
      · rw [Option.some_inj] at hc
        split at hc
        · split at hc
          · exact mapRW_of_triple hc mapEventsRW_nil
          · exact mapRW_of_triple hc (mapEventsRW_attach s _ _)
        · split at hc
          · split at hc
            · exact mapRW_of_triple hc mapEventsRW_nil
            · exact mapRW_of_triple hc (mapEventsRW_detach s _ _)
          · split at hc
            · split at hc
              · exact mapRW_of_triple hc mapEventsRW_nil
              · exact mapRW_of_triple hc (mapEventsRW_map_handler s _ _ _ _ _)
            · split at hc
              · split at hc
                · exact mapRW_of_triple hc mapEventsRW_nil
                · exact mapRW_of_triple hc (mapEventsRW_unmap_handler s _ _ _)
              · exact mapRW_of_triple hc mapEventsRW_nil
  · intro sid
    unfold virtio_iommu_replay
    split
    · exact mapEventsRW_nil
    · split
      · exact mapEventsRW_nil
      · split
        · exact mapEventsRW_nil
        · intro sid' i pa sz pm hm
          rw [List.mem_flatMap] at hm
          obtain ⟨p, hp, hmm⟩ := hm
          unfold virtio_iommu_remap at hmm
          rcases List.mem_cons.mp hmm with h1 | h1
          · exact absurd h1.symm (by simp [virtio_iommu_notify_unmap])
          · rw [List.mem_singleton] at h1
            unfold virtio_iommu_notify_map at h1
            injection h1.symm with h2 h3 h4 h5 h6
            exact h6.symm
  · intro sid addr flag ep did d kv hep hr hdo hdom hkv hor
    have hbool : (((flag &&& IOMMU_RO) != 0) && ((kv.2.flags &&& MAP_F_READ) == 0)) = true ∨
        (((flag &&& IOMMU_WO) != 0) && ((kv.2.flags &&& MAP_F_WRITE) == 0)) = true := by
      rcases hor with ⟨ha, hb⟩ | ⟨ha, hb⟩
      · exact Or.inl (by simp [ha, hb])
      · exact Or.inr (by simp [ha, hb])
    rw [translate_mapped_fault hep hr hdo hdom hkv hbool]
    rfl

theorem C10_map_notifications_rw_witness :
    virtio_iommu_handle_command exS2n exMapElem2 =
      some (exS2b, [IOMMUEvent.map 7 8192 196608 4096 3], S_OK) ∧
    IOMMUEvent.map 7 8192 196608 4096 3 ∈ [IOMMUEvent.map 7 8192 196608 4096 3] ∧
    (3 : Nat) = IOMMU_RW := by
  refine ⟨by decide, by simp, ?_⟩
  exact (C10_map_notifications_rw exS2n).1 exMapElem2 exS2b
    [IOMMUEvent.map 7 8192 196608 4096 3] S_OK (by decide)
    7 8192 196608 4096 3 (by simp)

theorem C7_short_payload_witness :
    REQ_HEAD_SIZE ≤ exShortElem.out_len ∧ REQ_TAIL_SIZE ≤ exShortElem.in_len ∧
    1 ≤ exShortElem.head_type ∧ exShortElem.head_type ≤ 5 ∧
    exShortElem.out_len < req_payload_size exShortElem.head_type ∧
    virtio_iommu_handle_command exS2 exShortElem = some (exS2, [], S_INVAL) ∧
    virtio_iommu_handle_command exS2 exProbeShortElem = none :=
  ⟨by decide, by decide, by decide, by decide, by decide,
   (C7_short_payload exS2 exShortElem (by decide) (by decide) (by decide)
     (by decide) (by decide)).trans (by decide),
   (C7_short_payload exS2 exProbeShortElem (by decide) (by decide) (by decide)
     (by decide) (by decide)).trans (by decide)⟩

/-! ### Claim C8 support: reloading a well-formed mapping table -/

theorem gtreeInsert_append {k : viommu_interval} {v : viommu_mapping}
    {acc : List (viommu_interval × viommu_mapping)}
    (h : ∀ q ∈ acc, q.1.high < k.low) (hq : ∀ q ∈ acc, q.1.low ≤ q.1.high)
    (hk : k.low ≤ k.high) : gtreeInsert k v acc = acc ++ [(k, v)] := by
  induction acc with
  | nil => rfl
  | cons q rest ih =>
    rcases q with ⟨k', v'⟩
    have h1 : interval_cmp k k' = 1 :=
      interval_cmp_eq_one_of hk (hq (k', v') (by simp)) (h (k', v') (by simp))
    unfold gtreeInsert
    rw [if_neg (by rw [h1]; decide), if_neg (by rw [h1]; decide)]
    rw [ih (fun p hp => h p (List.mem_cons_of_mem _ hp))
        (fun p hp => hq p (List.mem_cons_of_mem _ hp))]
    simp

theorem loadMappings_go {ms acc : List (viommu_interval × viommu_mapping)}
    (hwf : mappingsWF ms) (hacc : ∀ q ∈ acc, q.1.low ≤ q.1.high)
    (hcross : ∀ q ∈ acc, ∀ p ∈ ms, q.1.high < p.1.low) :
    ms.foldl (fun a p => gtreeInsert p.1 p.2 a) acc = acc ++ ms := by
  induction ms generalizing acc with
  | nil => simp
  | cons m rest ih =>
    rw [List.foldl_cons]
    rw [gtreeInsert_append (fun q hq => hcross q hq m (by simp)) hacc
        (hwf.1 m (by simp))]
    have hwf' : mappingsWF rest :=
      ⟨fun p hp => hwf.1 p (List.mem_cons_of_mem _ hp),
       (List.pairwise_cons.mp hwf.2).2⟩
    have hachead := List.pairwise_cons.mp hwf.2
    rw [ih hwf' ?_ ?_]
    · simp
    · intro q hq
      rcases List.mem_append.mp hq with h1 | h1
      · exact hacc q h1
      · rw [List.mem_singleton.mp h1]
        exact hwf.1 m (by simp)
    · intro q hq p hp
      rcases List.mem_append.mp hq with h1 | h1
      · exact hcross q h1 p (List.mem_cons_of_mem _ hp)
      · rw [List.mem_singleton.mp h1]
        exact hachead.1 p hp

/-- Reloading the in-order tuples of a well-formed table reproduces it. -/
theorem loadMappings_id {ms : List (viommu_interval × viommu_mapping)}
    (hwf : mappingsWF ms) : loadMappings ms = ms := by
  unfold loadMappings
  rw [loadMappings_go hwf (by simp) (by simp)]
  rfl

/-! ### Claim C8 support: unique keys -/

theorem chain_lt_nodup {l : List Nat} (h : List.Chain' (· < ·) l) : l.Nodup := by
  have hp : List.Pairwise (· < ·) l := List.chain'_iff_pairwise.mp h
  exact hp.imp Nat.ne_of_lt

theorem keys_nodup_unique {α : Type} {t : List (Nat × α)}
    (h : (t.map Prod.fst).Nodup) {k : Nat} {a b : α}
    (ha : (k, a) ∈ t) (hb : (k, b) ∈ t) : a = b := by
  induction t with
  | nil => simp at ha
  | cons p rest ih =>
    rw [List.map_cons, List.nodup_cons] at h
    rcases List.mem_cons.mp ha with h1 | h1 <;> rcases List.mem_cons.mp hb with h2 | h2
    · rw [← h1] at h2
      injection h2.symm with _ hv
    · exfalso
      apply h.1
      rw [← h1]
      exact List.mem_map.mpr ⟨(k, b), h2, rfl⟩
    · exfalso
      apply h.1
      rw [← h2]
      exact List.mem_map.mpr ⟨(k, a), h1, rfl⟩
    · exact ih h.2 h1 h2

theorem tblLookup_of_mem {α : Type} {t : List (Nat × α)}
    (h : (t.map Prod.fst).Nodup) {k : Nat} {v : α} (hm : (k, v) ∈ t) :
    tblLookup k t = some v := by
  induction t with
  | nil => simp at hm
  | cons p rest ih =>
    rw [List.map_cons, List.nodup_cons] at h
    rcases p with ⟨k', v'⟩
    rcases List.mem_cons.mp hm with h1 | h1
    · injection h1.symm with hk hv
      subst hk
      unfold tblLookup
      rw [List.find?_cons_of_pos _ (by simp)]
      rw [hv]
      rfl
    · have hne : k' ≠ k := by
        intro he
        apply h.1
        rw [he]
        exact List.mem_map.mpr ⟨(k, v), h1, rfl⟩
      unfold tblLookup
      rw [List.find?_cons_of_neg _ (by simp [hne])]
      exact ih h.2 h1

/-! ### Claim C8 support: the link characterization of a well-formed state -/

theorem wf_link_char {s : VirtIOIOMMU} (hwf : StateWF s) :
    ∀ p ∈ s.endpoints, ∀ q ∈ s.domains,
      (p.1 ∈ q.2.endpoint_list ↔ p.2.domain = some q.1) := by
  obtain ⟨hcd, hce, hdm, hlink, hback⟩ := hwf
  intro p hp q hq
  constructor
  · intro hmem
    have h1 := hback q hq p.1 hmem
    have h2 : tblLookup p.1 s.endpoints = some p.2 :=
      tblLookup_of_mem (chain_lt_nodup hce) (by rcases p with ⟨a, b⟩; exact hp)
    rw [h1] at h2
    injection h2 with h3
    rw [← h3]
  · intro hdo
    rcases (hlink p hp).1 with h1 | ⟨q', hq', hq'd, hq'm⟩
    · rw [h1] at hdo
      simp at hdo
    · rw [hdo] at hq'd
      injection hq'd with hk
      have : q.2 = q'.2 := by
        apply keys_nodup_unique (chain_lt_nodup hcd) (k := q.1)
        · rcases q with ⟨a, b⟩
          exact hq
        · rw [hk]
          rcases q' with ⟨a, b⟩
          exact hq'
      rw [this]
      exact hq'm

/-! ### Claim C8 support: observable agreement through the fix-up -/

theorem domRel_refl (a : Nat × viommu_domain) : domRel a a :=
  ⟨rfl, rfl, fun _ => Iff.rfl, id⟩

theorem DomsRel_refl (ds : List (Nat × viommu_domain)) : DomsRel ds ds := by
  induction ds with
  | nil => exact List.Forall₂.nil
  | cons a rest ih => exact List.Forall₂.cons (domRel_refl a) ih

theorem domRel_trans {a b c : Nat × viommu_domain} (h1 : domRel a b)
    (h2 : domRel b c) : domRel a c :=
  ⟨h1.1.trans h2.1, h1.2.1.trans h2.2.1,
   fun x => (h1.2.2.1 x).trans (h2.2.2.1 x),
   fun hn => h1.2.2.2 (h2.2.2.2 hn)⟩

theorem DomsRel_trans {ds₁ ds₂ ds₃ : List (Nat × viommu_domain)}
    (h1 : DomsRel ds₁ ds₂) (h2 : DomsRel ds₂ ds₃) : DomsRel ds₁ ds₃ := by
  induction h1 generalizing ds₃ with
  | nil =>
    cases h2
    exact List.Forall₂.nil
  | cons hab h1r ih =>
    cases h2 with
    | cons hbc h2r => exact List.Forall₂.cons (domRel_trans hab hbc) (ih h2r)

theorem DomsRel_mem_right {ds ds₀ : List (Nat × viommu_domain)}
    (h : DomsRel ds ds₀) : ∀ q ∈ ds, ∃ q₀ ∈ ds₀, domRel q q₀ := by
  induction h with
  | nil => intro q hq; simp at hq
  | cons hab hr ih =>
    intro q hq
    rcases List.mem_cons.mp hq with h1 | h1
    · exact ⟨_, by simp, h1 ▸ hab⟩
    · obtain ⟨q₀, hq₀, hrel⟩ := ih q h1
      exact ⟨q₀, List.mem_cons_of_mem _ hq₀, hrel⟩

theorem DomsRel_mem_left {ds ds₀ : List (Nat × viommu_domain)}
    (h : DomsRel ds ds₀) : ∀ q₀ ∈ ds₀, ∃ q ∈ ds, domRel q q₀ := by
  induction h with
  | nil => intro q hq; simp at hq
  | cons hab hr ih =>
    intro q₀ hq₀
    rcases List.mem_cons.mp hq₀ with h1 | h1
    · exact ⟨_, by simp, h1 ▸ hab⟩
    · obtain ⟨q, hq, hrel⟩ := ih q₀ h1
      exact ⟨q, List.mem_cons_of_mem _ hq, hrel⟩

theorem reconstruct_none {eid : Nat} {ds : List (Nat × viommu_domain)}
    (h : ∀ q ∈ ds, eid ∉ q.2.endpoint_list) :
    reconstruct_ep_domain_link eid ds = (ds, none) := by
  induction ds with
  | nil => rfl
  | cons q rest ih =>
    rcases q with ⟨k, d⟩
    unfold reconstruct_ep_domain_link
    rw [if_neg (h (k, d) (by simp))]
    rw [ih (fun p hp => h p (List.mem_cons_of_mem _ hp))]

theorem reconstruct_some {eid did : Nat} {ds : List (Nat × viommu_domain)}
    (hex : ∃ q ∈ ds, eid ∈ q.2.endpoint_list)
    (huniq : ∀ q ∈ ds, eid ∈ q.2.endpoint_list → q.1 = did) :
    (reconstruct_ep_domain_link eid ds).2 = some did ∧
    DomsRel (reconstruct_ep_domain_link eid ds).1 ds := by
  induction ds with
  | nil =>
    obtain ⟨q, hq, -⟩ := hex
    simp at hq
  | cons q rest ih =>
    rcases q with ⟨k, d⟩
    unfold reconstruct_ep_domain_link
    by_cases hmem : eid ∈ d.endpoint_list
    · rw [if_pos hmem]
      refine ⟨congrArg some (huniq (k, d) (by simp) hmem), ?_⟩
      refine List.Forall₂.cons ⟨rfl, rfl, ?_, ?_⟩ (DomsRel_refl rest)
      · intro x
        constructor
        · intro hx
          rcases List.mem_cons.mp hx with h1 | h1
          · rw [h1]
            exact hmem
          · exact List.mem_of_mem_erase h1
        · intro hx
          by_cases hxe : x = eid
          · rw [hxe]
            exact List.mem_cons_self _ _
          · exact List.mem_cons_of_mem _ ((List.mem_erase_of_ne hxe).mpr hx)
      · intro hn
        exact List.Nodup.cons (hn.not_mem_erase) (hn.erase eid)
    · rw [if_neg hmem]
      have hex' : ∃ q ∈ rest, eid ∈ q.2.endpoint_list := by
        obtain ⟨q, hq, hqm⟩ := hex
        rcases List.mem_cons.mp hq with h1 | h1
        · rw [h1] at hqm
          exact absurd hqm hmem
        · exact ⟨q, h1, hqm⟩
      obtain ⟨ih1, ih2⟩ := ih hex'
        (fun q hq hqm => huniq q (List.mem_cons_of_mem _ hq) hqm)
      exact ⟨ih1, List.Forall₂.cons (domRel_refl (k, d)) ih2⟩

theorem tblUpdate_append {α : Type} {k : Nat} (f : α → α) {l₁ : List (Nat × α)}
    (v : α) (l₂ : List (Nat × α)) (h : ∀ q ∈ l₁, q.1 ≠ k) :
    tblUpdate k f (l₁ ++ (k, v) :: l₂) = l₁ ++ (k, f v) :: l₂ := by
  induction l₁ with
  | nil => simp [tblUpdate]
  | cons p rest ih =>
    rcases p with ⟨k', v'⟩
    rw [List.cons_append]
    unfold tblUpdate
    rw [if_neg (h (k', v') (by simp))]
    rw [ih (fun q hq => h q (List.mem_cons_of_mem _ hq))]
    rfl

/-- The post-load fix-up fold: starting from a state whose endpoints are a
processed prefix followed by cleared placeholders, the fold restores each
remaining endpoint record and keeps the domain table observably as saved. -/
theorem postload_fold_spec (sdoms : List (Nat × viommu_domain))
    (l₂ : List (Nat × viommu_endpoint)) :
    ∀ (st : VirtIOIOMMU) (l₁ : List (Nat × viommu_endpoint)),
    st.endpoints = l₁ ++ l₂.map (fun p => (p.1, (⟨none⟩ : viommu_endpoint))) →
    (((l₁ ++ l₂).map Prod.fst).Nodup) →
    DomsRel st.domains sdoms →
    (∀ p ∈ l₁ ++ l₂, ∀ q ∈ sdoms, (p.1 ∈ q.2.endpoint_list ↔ p.2.domain = some q.1)) →
    (∀ p ∈ l₂, ∀ did, p.2.domain = some did → ∃ q ∈ sdoms, q.1 = did) →
    ∃ dsF,
      (l₂.map Prod.fst).foldl
        (fun st eid =>
          let r := reconstruct_ep_domain_link eid st.domains
          { st with domains := r.1,
                    endpoints := tblUpdate eid (fun _ => ⟨r.2⟩) st.endpoints }) st
        = { st with domains := dsF, endpoints := l₁ ++ l₂ } ∧
      DomsRel dsF sdoms := by
  induction l₂ with
  | nil =>
    intro st l₁ hst hkeys hrel hchar hex
    refine ⟨st.domains, ?_, hrel⟩
    rw [List.map_nil, List.append_nil] at hst
    simp only [List.map_nil, List.foldl_nil, List.append_nil]
    rw [← hst]
  | cons p rest ih =>
    intro st l₁ hst hkeys hrel hchar hex
    rcases p with ⟨eid, ep⟩
    have hl₁ne : ∀ q ∈ l₁, q.1 ≠ eid := by
      intro q hq he
      rw [List.map_append, List.nodup_append] at hkeys
      exact hkeys.2.2 (List.mem_map.mpr ⟨q, hq, rfl⟩) (by simp [he])
    have hself : ((eid, ep) : Nat × viommu_endpoint) ∈ l₁ ++ (eid, ep) :: rest := by
      simp
    rcases hdo : ep.domain with _ | did
    · have hnomem : ∀ q ∈ st.domains, eid ∉ q.2.endpoint_list := by
        intro q hq hqm
        obtain ⟨q₀, hq₀, hrelq⟩ := DomsRel_mem_right hrel q hq
        have hm0 : eid ∈ q₀.2.endpoint_list := (hrelq.2.2.1 eid).mp hqm
        have h2 : ep.domain = some q₀.1 := (hchar (eid, ep) hself q₀ hq₀).mp hm0
        rw [hdo] at h2
        exact Option.noConfusion h2
      have hrec : reconstruct_ep_domain_link eid st.domains = (st.domains, none) :=
        reconstruct_none hnomem
      have hep : (⟨none⟩ : viommu_endpoint) = ep := by rw [← hdo]
      obtain ⟨dsF, hfold, hrelF⟩ :=
        ih { st with endpoints := l₁ ++ (eid, ep) ::
               rest.map (fun p => (p.1, (⟨none⟩ : viommu_endpoint))) }
          (l₁ ++ [(eid, ep)])
          (by dsimp only
              exact List.append_cons l₁ (eid, ep)
                (rest.map (fun p => (p.1, (⟨none⟩ : viommu_endpoint)))))
          (by rw [← List.append_cons]; exact hkeys)
          hrel
          (by intro p hp q hq
              apply hchar p ?_ q hq
              rw [List.append_cons]
              exact hp)
          (fun p hp => hex p (List.mem_cons_of_mem _ hp))
      refine ⟨dsF, ?_, hrelF⟩
      rw [List.map_cons, List.foldl_cons]
      dsimp only
      rw [hrec]
      dsimp only
      rw [hst, List.map_cons]
      rw [tblUpdate_append (fun _ => (⟨none⟩ : viommu_endpoint)) (⟨none⟩ : viommu_endpoint)
          (rest.map (fun p => (p.1, (⟨none⟩ : viommu_endpoint)))) hl₁ne]
      nth_rewrite 1 [hep]
      rw [← List.append_cons] at hfold
      exact hfold
    · obtain ⟨q₀, hq₀m, hq₀k⟩ := hex (eid, ep) (by simp) did hdo
      have hmem0 : eid ∈ q₀.2.endpoint_list := by
        apply (hchar (eid, ep) hself q₀ hq₀m).mpr
        show ep.domain = some q₀.1
        rw [hdo, hq₀k]
      have hexst : ∃ q ∈ st.domains, eid ∈ q.2.endpoint_list := by
        obtain ⟨q, hq, hrelq⟩ := DomsRel_mem_left hrel q₀ hq₀m
        exact ⟨q, hq, (hrelq.2.2.1 eid).mpr hmem0⟩
      have huniq : ∀ q ∈ st.domains, eid ∈ q.2.endpoint_list → q.1 = did := by
        intro q hq hqm
        obtain ⟨q₀q, hq₀q, hrelq⟩ := DomsRel_mem_right hrel q hq
        have hm' : eid ∈ q₀q.2.endpoint_list := (hrelq.2.2.1 eid).mp hqm
        have h2 : ep.domain = some q₀q.1 := (hchar (eid, ep) hself q₀q hq₀q).mp hm'
        rw [hdo] at h2
        injection h2 with h3
        rw [hrelq.1, ← h3]
      obtain ⟨hr2, hr1⟩ := reconstruct_some hexst huniq
      have hep : (⟨some did⟩ : viommu_endpoint) = ep := by rw [← hdo]
      obtain ⟨dsF, hfold, hrelF⟩ :=
        ih { st with
               domains := (reconstruct_ep_domain_link eid st.domains).1,
               endpoints := l₁ ++ (eid, ep) ::
                 rest.map (fun p => (p.1, (⟨none⟩ : viommu_endpoint))) }
          (l₁ ++ [(eid, ep)])
          (by dsimp only
              exact List.append_cons l₁ (eid, ep)
                (rest.map (fun p => (p.1, (⟨none⟩ : viommu_endpoint)))))
          (by rw [← List.append_cons]; exact hkeys)
          (DomsRel_trans hr1 hrel)
          (by intro p hp q hq
              apply hchar p ?_ q hq
              rw [List.append_cons]
              exact hp)
          (fun p hp => hex p (List.mem_cons_of_mem _ hp))
      refine ⟨dsF, ?_, hrelF⟩
      rw [List.map_cons, List.foldl_cons]
      dsimp only
      rw [hr2]
      rw [hst, List.map_cons]
      rw [tblUpdate_append (fun _ => (⟨some did⟩ : viommu_endpoint)) (⟨none⟩ : viommu_endpoint)
          (rest.map (fun p => (p.1, (⟨none⟩ : viommu_endpoint)))) hl₁ne]
      rw [hep]
      rw [← List.append_cons] at hfold
      exact hfold

/-- Loading a snapshot reproduces each domain observably: same key, same
mapping table (for well-formed tables), same endpoint membership. -/
theorem DomsRel_loadRaw {ds : List (Nat × viommu_domain)}
    (h : ∀ p ∈ ds, mappingsWF p.2.mappings) :
    DomsRel (ds.map (fun p => (p.1, ⟨loadMappings p.2.mappings, p.2.endpoint_list, 1⟩))) ds := by
  induction ds with
  | nil => exact List.Forall₂.nil
  | cons p rest ih =>
    refine List.Forall₂.cons ?_ (ih (fun q hq => h q (List.mem_cons_of_mem _ hq)))
    exact ⟨rfl, loadMappings_id (h p (by simp)), fun x => Iff.rfl, id⟩

/-- Claim C8 (amended): saving and restoring a well-formed state restores the
endpoint table exactly, restores every domain up to its observable content
(key, mapping table, endpoint membership, freedom from duplicates), and
leaves the restored endpoint-domain links mutually consistent: an endpoint
id sits in a restored domain's endpoint list exactly when that endpoint's
domain field names that domain.  The restored state is not literally equal
to the original: the mapping-table reference count is reset by the load and
never restored, and the order inside an endpoint list may change. -/
theorem C8_snapshot_roundtrip (s : VirtIOIOMMU) (hwf : StateWF s) :
    (vmstateRoundTrip s).endpoints = s.endpoints ∧
    DomsRel (vmstateRoundTrip s).domains s.domains ∧
    (∀ p ∈ (vmstateRoundTrip s).endpoints, ∀ q ∈ (vmstateRoundTrip s).domains,
      (p.1 ∈ q.2.endpoint_list ↔ p.2.domain = some q.1)) := by
  have hchar := wf_link_char hwf
  obtain ⟨hcd, hce, hdm, hlink, hback⟩ := hwf
  obtain ⟨dsF, hfold, hrelF⟩ :=
    postload_fold_spec s.domains s.endpoints
      (vmstateLoadRaw (vmstateSave s) s.notifiers_list s.bypass_allowed
        s.reserved_regions s.page_size_mask) []
      (by unfold vmstateLoadRaw vmstateSave
          dsimp only
          rw [List.map_map]
          rfl)
      (by exact chain_lt_nodup hce)
      (by unfold vmstateLoadRaw vmstateSave
          dsimp only
          rw [List.map_map]
          exact DomsRel_loadRaw (fun p hp => (hdm p hp).1))
      (by intro p hp q hq
          exact hchar p hp q hq)
      (by intro p hp did hdo
          rcases (hlink p hp).1 with h1 | ⟨q, hq, hqd, hqm⟩
          · rw [h1] at hdo
            exact absurd hdo (by simp)
          · rw [hdo] at hqd
            injection hqd with h2
            exact ⟨q, hq, h2.symm⟩)
  have hround : vmstateRoundTrip s
      = { (vmstateLoadRaw (vmstateSave s) s.notifiers_list s.bypass_allowed
            s.reserved_regions s.page_size_mask) with
          domains := dsF, endpoints := [] ++ s.endpoints } := by
    unfold vmstateRoundTrip iommu_post_load
    rw [show (vmstateLoadRaw (vmstateSave s) s.notifiers_list s.bypass_allowed
          s.reserved_regions s.page_size_mask).endpoints.map Prod.fst
        = s.endpoints.map Prod.fst from by
          unfold vmstateLoadRaw vmstateSave
          dsimp only
          rw [List.map_map, List.map_map]
          rfl]
    exact hfold
  refine ⟨?_, ?_, ?_⟩
  · rw [hround]
    rfl
  · rw [hround]
    exact hrelF
  · rw [hround]
    intro p hp q hq
    obtain ⟨q₀, hq₀, hrelq⟩ := DomsRel_mem_right hrelF q hq
    rw [hrelq.1]
    constructor
    · intro hm
      exact (hchar p hp q₀ hq₀).mp ((hrelq.2.2.1 p.1).mp hm)
    · intro hd
      exact (hrelq.2.2.1 p.1).mpr ((hchar p hp q₀ hq₀).mpr hd)

/-- Claim C8 witness: the round trip of the attached-and-mapped example
state restores its endpoint table exactly. -/
theorem C8_snapshot_roundtrip_witness :
    StateWF exS2 ∧ (vmstateRoundTrip exS2).endpoints = exS2.endpoints :=
  ⟨by decide, (C8_snapshot_roundtrip exS2 (by decide)).1⟩

/-- Claim C8 counterexample: the round trip is not literally the identity on
a well-formed state: the mapping-table reference count of the example
domain (two: one for the table, one for its attached endpoint) is reset to
one by the load and never restored by the fix-up, so the restored state
differs from the original. -/
theorem C8_snapshot_counterexample :
    StateWF exS2 ∧ vmstateRoundTrip exS2 ≠ exS2 := by decide

end VIOMMU

